import Mathlib

/-!
Verification of the MIR-building stage of the mmcc compiler
(mm0-rs/components/mmcc/src/build_mir.rs).

The development shallowly embeds the parts of the builder the claims are
about.  Rust HashMaps are modelled as association lists where an insert
prepends the new binding (lookups see the latest binding, as in the
original).  Rust panics and fuel exhaustion are modelled as a fault value.
The mir support types (Cfg, BasicBlock, Ctxs, VarId allocation) live in
mir.rs which is not among the provided sources; they are modelled from the
spec's data-model section and their uses in build_mir.rs / build_vcode.rs:
a basic block is (context id, reachability flag, statement list,
terminator), a typing context is a chain of (variable, relevance, type)
entries addressed by a context id, and variable identifiers come from a
single strictly increasing counter.
-/

namespace MM0

/-- HIR variable identifiers (source-level names after type inference). -/
abbrev HVarId := Nat
/-- MIR (CFG-IR) variable identifiers, allocated by the running counter. -/
abbrev VarId := Nat
/-- Generation identifiers. -/
abbrev GenId := Nat

/-- The root generation (GenId::ROOT), the function entry epoch. -/
def GenId.ROOT : GenId := 0

/-- Association-list lookup with Nat keys: the model of HashMap::get. -/
def alookup {β : Type} : List (Nat × β) → Nat → Option β
  | [], _ => none
  | (k, v) :: l, k' => if k' = k then some v else alookup l k'

/-- Association-list insert modelled as prepend: the model of
HashMap::insert (lookups see the newest binding). -/
def aupd {β : Type} (l : List (Nat × β)) (k : Nat) (v : β) : List (Nat × β) :=
  (k, v) :: l

/-- One generation's entry in the generation table (struct GenMap):
its dominator, the explicit rebinding map for names rebound at this epoch,
and the resolution cache. -/
structure GenMap where
  dominator : GenId
  value : List (HVarId × VarId)
  cache : List (HVarId × VarId)
deriving DecidableEq

/-- The state of the Translator that variable resolution uses:
the generation table, the location (root identifier) map, the per-location
version history, the variable counter, and the current generation. -/
structure TrState where
  gen_vars : List (GenId × GenMap)
  locations : List (HVarId × VarId)
  located : List (VarId × List VarId)
  next_var : VarId
  cur_gen : GenId
deriving DecidableEq

/-- Allocate a fresh variable (Translator::fresh_var via VarId::fresh):
returns the current counter value and increments it. -/
def TrState.freshVar (s : TrState) : VarId × TrState :=
  (s.next_var, { s with next_var := s.next_var + 1 })

/-- Insert a resolution into a generation's cache
(gen_vars.get_mut(gen).cache.insert(v, val)); the generation is looked up
again at insertion time exactly as the Rust code re-borrows the map. -/
def TrState.cacheIns (s : TrState) (g : GenId) (v : HVarId) (val : VarId) : TrState :=
  match alookup s.gen_vars g with
  | some gm =>
    { s with gen_vars := aupd s.gen_vars g { gm with cache := aupd gm.cache v val } }
  | none => s

/-- Record the location of a source variable (the locations.entry match in
tr_var): an occupied entry appends the freshly resolved version to the root
identifier's history, a vacant entry records this resolution as the root. -/
def TrState.recordLoc (s : TrState) (v : HVarId) (val : VarId) : TrState :=
  match alookup s.locations v with
  | some root =>
    let cur := (alookup s.located root).getD []
    { s with located := aupd s.located root (cur ++ [val]) }
  | none => { s with locations := aupd s.locations v val }

/-- Read a generation's cache entry for a source variable. -/
def cacheLookup (s : TrState) (g : GenId) (v : HVarId) : Option VarId :=
  match alookup s.gen_vars g with
  | some gm => alookup gm.cache v
  | none => none

/-- The non-cached exit of tr_var: store the resolved value in the
generation's cache, record the location history, and return the value. -/
def trVarFinish (gen : GenId) (v : HVarId) (val : VarId) (s1 : TrState) : VarId × TrState :=
  (val, (s1.cacheIns gen v val).recordLoc v val)

/-- Generation-table resolution (Translator::tr_var), with fuel bounding
the dominator recursion; none models the Rust panics (unknown generation)
and fuel exhaustion on a cyclic dominator chain.  On a cache hit the cached
identifier is returned unchanged; otherwise the value is the explicit
rebinding if present, a fresh identifier at the root, or the dominator's
resolution, and it is stored in this generation's cache and recorded in the
location history before returning. -/
def trVar : Nat → HVarId → GenId → TrState → Option (VarId × TrState)
  | 0, _, _, _ => none
  | fuel+1, v, gen, s =>
    match alookup s.gen_vars gen with
    | none => none
    | some gm =>
      match alookup gm.cache v with
      | some val => some (val, s)
      | none =>
        match alookup gm.value v with
        | some val => some (trVarFinish gen v val s)
        | none =>
          if gen = GenId.ROOT then
            some (trVarFinish gen v (TrState.freshVar s).1 (TrState.freshVar s).2)
          else
            (trVar fuel v gm.dominator s).map (fun p => trVarFinish gen v p.1 p.2)

/-- A dominator chain from g up to the ancestor a of length n, along which
the variable v has neither a cache entry nor an explicit rebinding, and
which does not pass through the root below a.  This is the claim C7
hypothesis of reaching a common ancestor with no intervening rebinding. -/
inductive Below (s : TrState) (v : HVarId) (a : GenId) : GenId → Nat → Prop where
  | base : Below s v a a 0
  | step {g : GenId} {gm : GenMap} {n : Nat} :
      g ≠ a → g ≠ GenId.ROOT →
      alookup s.gen_vars g = some gm →
      alookup gm.cache v = none →
      alookup gm.value v = none →
      Below s v a gm.dominator n →
      Below s v a g (n + 1)

/-!
The memoizing structural translator: impl Translate for &ty::WithMeta<T>
(build_mir.rs lines 158-190).  Nodes are identified by their structural
identity (an id) and the precomputed HAS_VAR flag from ty::Flags; the memo
table (TrMap) maps a node id to either a generation-independent entry
(Rust Ok) or a per-generation map (Rust Err). -/

/-- A source node as the memoization wrapper sees it: its identity and
whether its static flags contain ty::Flags::HAS_VAR. -/
structure MNode where
  id : Nat
  hasVar : Bool
deriving DecidableEq

/-- The state the memoization wrapper touches: the memo table for this node
kind, the current generation, and whether the pattern-substitution map is
empty.  The make function may mutate all of it (recursive translation). -/
structure MState (V : Type) where
  memo : List (Nat × (V ⊕ List (GenId × V)))
  cur_gen : GenId
  substEmpty : Bool
deriving DecidableEq

/-- The cache consultation: an Ok entry is returned at any generation, an
Err entry only at the current generation. -/
def memoHit {V : Type} (s : MState V) (n : MNode) : Option V :=
  match alookup s.memo n.id with
  | some (Sum.inl r) => some r
  | some (Sum.inr m) => alookup m s.cur_gen
  | none => none

/-- The memoizing translation wrapper (Translate::tr for &WithMeta<T>),
parameterized by the node's make function.  When the substitution map is
non-empty the wrapper just runs make; otherwise it consults the memo table
and, on a miss, runs make and stores the result keyed by the generation
captured before make ran.  none models the unreachable panic (an Ok entry
appearing for a node that just missed). -/
def trNode {V : Type} (make : MState V → V × MState V) (n : MNode) (s : MState V) :
    Option (V × MState V) :=
  if s.substEmpty then
    let gen := s.cur_gen
    match memoHit s n with
    | some r => some (r, s)
    | none =>
      let (r, s1) := make s
      match alookup s1.memo n.id with
      | some (Sum.inl _) => none
      | some (Sum.inr m) =>
        some (r, { s1 with memo := aupd s1.memo n.id (Sum.inr (aupd m gen r)) })
      | none =>
        let entry := if n.hasVar then Sum.inr [(gen, r)] else Sum.inl r
        some (r, { s1 with memo := aupd s1.memo n.id entry })
  else some (make s)

/-!
Inference-placeholder resolution (TranslateBase::make for ty::TyKind,
build_mir.rs lines 86-90): a TyKind::Infer node is resolved through the
inference context; a missing context or an unsolved metavariable is a
fatal internal error (panic), modelled as none. -/

/-- A source type fragment: the constructors of ty::TyKind that the
inference claim touches (Unit, Bool, a recursive constructor, Infer). -/
inductive HTy where
  | unit
  | bool
  | array (t : HTy) (n : Nat)
  | infer (v : Nat)
deriving DecidableEq

/-- The corresponding translated (MIR) type fragment of mir TyKind. -/
inductive MirTy where
  | unit
  | bool
  | array (t : MirTy) (n : Nat)
deriving DecidableEq

/-- The type-metavariable assignment of the inference context
(crate::infer::MVars.ty viewed through lookup). -/
structure MVars where
  ty : List (Nat × HTy)
deriving DecidableEq

/-- TyKind::make restricted to this fragment: Infer consults the inference
context and recursively translates the solution; a missing context
(expect no-inference-context) or an unsolved metavariable (panic
uninferred-type-variable) aborts with none.  Fuel bounds the recursion
into solutions. -/
def tyMake : Nat → Option MVars → HTy → Option MirTy
  | 0, _, _ => none
  | _+1, _, .unit => some .unit
  | _+1, _, .bool => some .bool
  | fuel+1, mv, .array t n => (tyMake fuel mv t).map (fun t2 => MirTy.array t2 n)
  | fuel+1, mv, .infer v =>
    match mv with
    | none => none
    | some m =>
      match alookup m.ty v with
      | some ty => tyMake fuel mv ty
      | none => none

/-- A type contains, along a spine the translator must visit, an inference
placeholder that the context cannot resolve. -/
def hasUnsolved (mv : Option MVars) : HTy → Bool
  | .unit => false
  | .bool => false
  | .array t _ => hasUnsolved mv t
  | .infer v =>
    match mv with
    | none => true
    | some m => (alookup m.ty v).isNone

/-!
The graph builder (struct BuildMir) and the destination-passing lowering,
transcribed for a mini-HIR fragment: unit and boolean literals, variable
reads, if-expressions (with generation tag, mutable set, and trivial
flag), blocks with let / expression / label statements, break, return
(with no return values) and the trivially-false assert (Terminator::Fail).
Types and pure-expression shadows that only land in statement and context
fields are kept as placeholders (the mini language is simply typed and
carries no precomputed shadows, so cond.k.1.0 is always None and every
value is computationally relevant and copyable); the claims under
verification do not depend on those fields.  fulfill_unit_dest's
unit-destination shortcut is the identity on this fragment and is not
modelled. -/

/-- Block identifiers: indices into the block list of the Cfg. -/
abbrev BlockId := Nat
/-- Context identifiers: indices into the context arena. -/
abbrev CtxId := Nat

/-- The pure (mir) expression fragment appearing in statement and context
fields of this model. -/
inductive MExpr where
  | unit
  | var (v : VarId)
  | bool (b : Bool)
deriving DecidableEq

/-- The mir type fragment appearing in statement and context fields:
Pure and Not are the hypothesis types built by expr_if, unit is the
placeholder for the dropped source types. -/
inductive MTy where
  | unit
  | bool
  | pureT (e : MExpr)
  | notT (t : MTy)
deriving DecidableEq

/-- ExprTy: an optional pure value together with a type. -/
abbrev ExprTy := Option MExpr × MTy

/-- Operands (mir Operand): constants, or a copy / move of a local place.
Projections do not occur in this fragment, so a place is a local variable;
the VarId-to-Operand coercion is modelled as a move. -/
inductive Operand where
  | constUnit
  | constITrue
  | constBool (b : Bool)
  | copy (v : VarId)
  | move (v : VarId)
deriving DecidableEq

/-- RValues of this fragment coincide with operands. -/
abbrev RValue := Operand

/-- Statements (mir Statement): Let with the LetKind::Let shape, and the
bookkeeping markers.  Assign and LetKind::Ptr do not occur in the
fragment. -/
inductive Statement where
  | letS (v : VarId) (e : Option MExpr) (r : Bool) (ty : MTy) (rv : RValue)
  | labelGroup (bls : List BlockId) (ctx : CtxId)
  | popLabelGroup
  | dominatedBlock (bl : BlockId) (ctx : CtxId)
deriving DecidableEq

/-- Terminators (mir Terminator) of the fragment. -/
inductive Terminator where
  | jump (tgt : BlockId) (args : List (VarId × Bool × Operand))
  | branch (ctx : CtxId) (cond : Operand) (tru : VarId × BlockId) (fal : VarId × BlockId)
  | ret (outs : List VarId) (args : List (VarId × Bool × Operand))
  | fail
deriving DecidableEq

/-- A typing-context entry: variable, computational-relevance flag, type. -/
abbrev CtxEntry := VarId × Bool × ExprTy

/-- A basic block: owning context, reachability flag, statements, and the
terminator once the block is terminated. -/
structure BasicBlock where
  ctx : CtxId
  reachable : Bool
  stmts : List Statement
  term : Option Terminator
deriving DecidableEq

/-- The control-flow graph under construction: the block list, the context
arena (a context is its full entry chain; extension appends a new chain),
and the variable-counter high-water mark. -/
structure Cfg where
  blocks : List BasicBlock
  ctxs : List (List CtxEntry)
  max_var : VarId
deriving DecidableEq

/-- Cfg::default: no blocks, the root (empty) context, counter 0. -/
def Cfg.default0 : Cfg := { blocks := [], ctxs := [[]], max_var := 0 }

/-- The entries of a context (Ctxs indexing). -/
def Cfg.ctxEntries (c : Cfg) (i : CtxId) : List CtxEntry :=
  (c.ctxs.get? i).getD []

/-- Ctxs::len: the number of entries of a context. -/
def Cfg.ctxLen (c : Cfg) (i : CtxId) : Nat := (c.ctxEntries i).length

/-- Ctxs::extend: a new context extending an existing one by one entry. -/
def Cfg.extendCtx (c : Cfg) (i : CtxId) (v : VarId) (r : Bool) (ty : ExprTy) :
    CtxId × Cfg :=
  (c.ctxs.length, { c with ctxs := c.ctxs ++ [c.ctxEntries i ++ [(v, r, ty)]] })

/-- Cfg::new_block: append a fresh unfinished block owning the given
context.  The parent argument (a context length used for dominator
bookkeeping in mir.rs) is accepted to mirror the call shape but not
tracked by this model. -/
def Cfg.newBlock (c : Cfg) (ctx : CtxId) (parent : Nat) : BlockId × Cfg :=
  let _ := parent
  (c.blocks.length,
   { c with blocks := c.blocks ++ [{ ctx := ctx, reachable := true, stmts := [], term := none }] })

/-- The block-tree nodes (mir BlockTree). -/
inductive BlockTree where
  | one (b : BlockId)
  | labelGroup (g : List BlockId) (ts : List BlockTree)
  | many (ts : List BlockTree)

/-- The in-progress block tree (struct BlockTreeBuilder): a stack of open
groups (head is the top of the stack) and the ordered nodes of the current
group. -/
structure BlockTreeBuilder where
  groups : List (List BlockTree × List BlockId)
  ordered : List BlockTree

/-- BlockTreeBuilder::push. -/
def BlockTreeBuilder.push (t : BlockTreeBuilder) (b : BlockId) : BlockTreeBuilder :=
  { t with ordered := t.ordered ++ [BlockTree.one b] }

/-- BlockTreeBuilder::push_group. -/
def BlockTreeBuilder.pushGroup (t : BlockTreeBuilder) (g : List BlockId) : BlockTreeBuilder :=
  { groups := (t.ordered, g) :: t.groups, ordered := [] }

/-- Pop n groups (the loop inside BlockTreeBuilder::truncate; each pop
closes the top group into a LabelGroup node). -/
def BlockTreeBuilder.popN : Nat → BlockTreeBuilder → BlockTreeBuilder
  | 0, t => t
  | k+1, t =>
    match t.groups with
    | [] => t
    | (many, group) :: rest =>
      BlockTreeBuilder.popN k
        { groups := rest, ordered := many ++ [BlockTree.labelGroup group t.ordered] }

/-- BlockTreeBuilder::truncate: pop until only n groups remain. -/
def BlockTreeBuilder.truncate (t : BlockTreeBuilder) (n : Nat) : BlockTreeBuilder :=
  BlockTreeBuilder.popN (t.groups.length - n) t

/-- A join block: the pre-allocated target block together with its join
point (target generation, declared mutable set). -/
structure JoinBlock where
  tgt : BlockId
  gen : GenId
  muts : List HVarId
deriving DecidableEq

/-- A break destination (BlockDest): the variable receiving the break
value, if any (its source ExprTy is dropped in this model). -/
abbrev BlockDest := Option VarId

/-- A label group on the label stack (struct LabelGroupData): optional
indexed-jump data (join point and per-label target blocks with argument
lists) and optional break data. -/
structure LabelGroupData where
  jumps : Option ((GenId × List HVarId) × List (BlockId × List (VarId × Bool)))
  brk : Option (JoinBlock × BlockDest)
deriving DecidableEq

/-- The return-place data (struct Returns). -/
structure Returns where
  outs : List HVarId
  args : List (VarId × Bool)
deriving DecidableEq

/-- The builder state (struct BuildMir): the CFG, the translator state,
the promoted-variable map (Translator.vars, places being locals here),
the label stack (pushes at the tail, as a Vec), the block-tree builder,
the return data, the global registrations, and the cursor (current block
and context; the current generation lives in the translator state). -/
structure BState where
  cfg : Cfg
  ts : TrState
  vars : List (VarId × VarId)
  labels : List (HVarId × LabelGroupData)
  tree : BlockTreeBuilder
  returns : Option Returns
  globals : List (Nat × Bool × VarId × MTy)
  cur_block : BlockId
  cur_ctx : CtxId

/-- The result of a lowering function: a value, the Diverged sentinel
(Err(Diverged)), or a fault modelling a Rust panic or fuel exhaustion. -/
inductive BRes (α : Type) where
  | ok (a : α)
  | div
  | fault
deriving DecidableEq

/-- BuildMir::fresh_var. -/
def BState.freshVar (s : BState) : VarId × BState :=
  let p := s.ts.freshVar
  (p.1, { s with ts := p.2 })

/-- BuildMir::cur: the cursor triple. -/
def BState.cur (s : BState) : BlockId × CtxId × GenId :=
  (s.cur_block, s.cur_ctx, s.ts.cur_gen)

/-- BuildMir::set: restore a cursor triple. -/
def BState.setCur (s : BState) (p : BlockId × CtxId × GenId) : BState :=
  { s with cur_block := p.1, cur_ctx := p.2.1, ts := { s.ts with cur_gen := p.2.2 } }

/-- BuildMir::new_block (allocates at the current context). -/
def BState.newBlock (s : BState) (parent : Nat) : BlockId × BState :=
  let p := s.cfg.newBlock s.cur_ctx parent
  (p.1, { s with cfg := p.2 })

/-- Allocate a block at an explicitly given context
(self.cfg.new_block(ctx, len) as used in expr_if). -/
def BState.newBlockWith (s : BState) (ctx : CtxId) (parent : Nat) : BlockId × BState :=
  let p := s.cfg.newBlock ctx parent
  (p.1, { s with cfg := p.2 })

/-- BuildMir::extend_ctx: extend the current context. -/
def BState.extendCtx (s : BState) (v : VarId) (r : Bool) (ty : ExprTy) : BState :=
  let p := s.cfg.extendCtx s.cur_ctx v r ty
  { s with cfg := p.2, cur_ctx := p.1 }

/-- Apply a function to the current block (the cfg[self.cur_block]
accesses; an out-of-range cursor, impossible in the runs considered,
leaves the state unchanged where Rust would abort). -/
def BState.modifyCurBlock (s : BState) (f : BasicBlock → BasicBlock) : BState :=
  match s.cfg.blocks.get? s.cur_block with
  | some b => { s with cfg := { s.cfg with blocks := s.cfg.blocks.set s.cur_block (f b) } }
  | none => s

/-- BuildMir::push_stmt: a Let statement first extends the typing context
with its binding, then every statement is appended to the current block. -/
def BState.pushStmt (s : BState) (st : Statement) : BState :=
  let s :=
    match st with
    | .letS v e r ty _ => s.extendCtx v r (e, ty)
    | _ => s
  s.modifyCurBlock (fun b => { b with stmts := b.stmts ++ [st] })

/-- BasicBlock::terminate on the current block. -/
def BState.terminate (s : BState) (t : Terminator) : BState :=
  s.modifyCurBlock (fun b => { b with term := some t })

/-- BuildMir::dominated_block: allocate a block (at the current context,
with the length of the argument context as parent) and record it with a
DominatedBlock marker in the current block. -/
def BState.dominatedBlock (s : BState) (ctx : CtxId) : BlockId × BState :=
  let n := s.cfg.ctxLen ctx
  let p := s.newBlock n
  (p.1, p.2.pushStmt (.dominatedBlock p.1 ctx))

/-- Translator::try_add_gen. -/
def BState.tryAddGen (s : BState) (dom gen : GenId) : BState :=
  match alookup s.ts.gen_vars gen with
  | some _ => s
  | none =>
    let gv := aupd s.ts.gen_vars gen { dominator := dom, value := [], cache := [] }
    { s with ts := { s.ts with gen_vars := gv } }

/-- The fuel that suffices for any acyclic dominator chain in the current
generation table. -/
def BState.trVarFuel (s : BState) : Nat := s.ts.gen_vars.length + 1

/-- Translate an HVarId at the current generation (Translate for HVarId,
which calls tr_var(v, cur_gen)). -/
def BState.trHVar (s : BState) (v : HVarId) : BRes VarId × BState :=
  match trVar s.trVarFuel v s.ts.cur_gen s.ts with
  | some (val, ts) => (.ok val, { s with ts := ts })
  | none => (.fault, s)

/-- BuildMir::tr_gen for an HVarId: with_gen swaps the current generation,
translates, and restores it; tr_var does not read cur_gen, so this is
resolution at the given generation. -/
def BState.trGenHVar (s : BState) (v : HVarId) (g : GenId) : BRes VarId × BState :=
  match trVar s.trVarFuel v g s.ts with
  | some (val, ts) => (.ok val, { s with ts := ts })
  | none => (.fault, s)

/-- A destination variable known in advance, pending translation, or
fresh (enum PreVar). -/
inductive PreVar where
  | ok (v : VarId)
  | pre (v : HVarId)
  | fresh
deriving DecidableEq

/-- Translate for PreVar at the current generation. -/
def BState.trPreVar (s : BState) (p : PreVar) : BRes VarId × BState :=
  match p with
  | .ok v => (.ok v, s)
  | .pre v => s.trHVar v
  | .fresh =>
    let p := s.freshVar
    (.ok p.1, p.2)

/-- Translate a PreVar at a given generation (tr_gen in expr_if's
destination setup). -/
def BState.trGenPreVar (s : BState) (p : PreVar) (g : GenId) : BRes VarId × BState :=
  match p with
  | .ok v => (.ok v, s)
  | .pre v => s.trGenHVar v g
  | .fresh =>
    let q := s.freshVar
    (.ok q.1, q.2)

/-- A destination designator (type Dest, spans dropped). -/
abbrev Dest := Option PreVar

/-- Reverse context search: ctxs.rev_iter(ctx).find on the variable,
yielding the entry's relevance flag. -/
def revFindCtx (entries : List CtxEntry) (v : VarId) : Option Bool :=
  ((entries.reverse.find? (fun e => e.1 = v)).map (fun e => e.2.1))

/-- BuildMir::join_args: extend the argument list with, for each variable
of the mutable set, an argument exactly when its identifier resolved at
the current generation differs from its identifier at the join's
generation and the former is found in the join target's context (whose
entry supplies the relevance flag). -/
def joinArgsAux (ctx : CtxId) (gen : GenId) (muts : List HVarId)
    (acc : List (VarId × Bool × Operand)) (s : BState) :
    BRes (List (VarId × Bool × Operand)) × BState :=
  match muts with
  | [] => (.ok acc, s)
  | v :: rest =>
    match s.trHVar v with
    | (.ok fr, s) =>
      match s.trGenHVar v gen with
      | (.ok tov, s) =>
        if fr = tov then joinArgsAux ctx gen rest acc s
        else
          match revFindCtx (s.cfg.ctxEntries ctx) fr with
          | none => joinArgsAux ctx gen rest acc s
          | some r => joinArgsAux ctx gen rest (acc ++ [(tov, r, Operand.move fr)]) s
      | (_, s) => (.fault, s)
    | (_, s) => (.fault, s)

/-- BuildMir::join: compute the join arguments against the target block's
context and terminate the current block with the jump. -/
def joinF (jb : JoinBlock) (args : List (VarId × Bool × Operand)) (s : BState) :
    BRes Unit × BState :=
  match s.cfg.blocks.get? jb.tgt with
  | none => (.fault, s)
  | some b =>
    match joinArgsAux b.ctx jb.gen jb.muts args s with
    | (.ok args2, s) => (.ok (), s.terminate (.jump jb.tgt args2))
    | (_, s) => (.fault, s)

/-- Reverse search of the label stack (labels.iter().rfind by name). -/
def labelRFind (labels : List (HVarId × LabelGroupData)) (lab : HVarId) :
    Option LabelGroupData :=
  ((labels.reverse.find? (fun p => p.1 = lab)).map (fun p => p.2))

/-!
The mini-HIR fragment (hir::ExprKind / StmtKind / Block restricted). -/

mutual
/-- Source expressions of the fragment.  hif carries the pieces of
hir::ExprKind::If: the optional hypothesis pair, the condition, both arms,
the post-if generation, the declared mutable set and the trivial flag. -/
inductive HExpr where
  | unit
  | boolE (b : Bool)
  | varE (v : HVarId) (gen : GenId)
  | hif (hyp : Option (HVarId × HVarId)) (cond : HExpr) (etru efal : HExpr)
        (gen : GenId) (muts : List HVarId) (trivial : Option Bool)
  | blockE (bl : HBlock)
  | brk (lab : HVarId) (e : HExpr)
  | ret
  | failE

/-- Source statements: a let with a plain-name pattern, an expression
statement, and a label declaration (with no label arms when it expects
jumps). -/
inductive HStmt where
  | slet (v : HVarId) (rhs : HExpr)
  | sexpr (e : HExpr)
  | slabel (v : HVarId) (hasJump : Bool)

/-- A source block: statements, optional tail expression, the block's exit
generation and declared mutable set. -/
inductive HBlock where
  | mk (stmts : List HStmt) (tail : Option HExpr) (gen : GenId) (muts : List HVarId)
end

/-- Whether a statement is a label declaration (the stmts.iter().any test
in rvalue_block). -/
def HStmt.isLabel : HStmt → Bool
  | .slabel _ _ => true
  | _ => false

/-- The name-pattern case of BuildMir::tup_pat: a global binding pushes
the registration Let and the globals entry; both cases record the bound
variable in the promoted-variable map (here the identity local place). -/
def tupPatName (global : Bool) (name : HVarId) (v2 : VarId) (s : BState) : BState :=
  if global then
    let s := s.pushStmt (.letS v2 none true MTy.unit (Operand.move v2))
    let s := { s with globals := s.globals ++ [(name, true, v2, MTy.unit)] }
    { s with vars := aupd s.vars v2 v2 }
  else
    { s with vars := aupd s.vars v2 v2 }

/-- hir::PlaceKind::Var / ExprKind::Var translation target: the resolved
variable, redirected through the promoted-variable map when present. -/
def BState.placeOfVar (s : BState) (v2 : VarId) : VarId :=
  match alookup s.vars v2 with
  | some p => p
  | none => v2

/-- The block/context frame that expr_if's non-trivial path sets up
before branching: the saved cursor, the two hypothesis contexts and the
two arm blocks. -/
structure IfFrame where
  base : BlockId × CtxId × GenId
  truCtx : CtxId
  truBl : BlockId
  falCtx : CtxId
  falBl : BlockId
deriving DecidableEq

/-- The context/block setup of expr_if's non-trivial path (the code from
capturing the cursor to the If terminator): register the target
generation, build the condition-true and condition-false contexts each
extending the base context with the hypothesis variable, allocate both
arm blocks and terminate the current block with the two-way branch. -/
def exprIfSplit (vcond vh1 vh2 : VarId) (gen : GenId) (s : BState) : IfFrame × BState :=
  let base := s.cur
  let baseCtx := s.cur_ctx
  let baseGen := s.ts.cur_gen
  let s := s.tryAddGen baseGen gen
  let baseLen := s.cfg.ctxLen baseCtx
  let pe := MExpr.var vcond
  let p1 := s.cfg.extendCtx baseCtx vh1 false (some MExpr.unit, MTy.pureT pe)
  let truCtx := p1.1
  let s := { s with cfg := p1.2 }
  let p2 := s.newBlockWith truCtx baseLen
  let truBl := p2.1
  let s := p2.2
  let p3 := s.cfg.extendCtx baseCtx vh2 false (some MExpr.unit, MTy.notT (MTy.pureT pe))
  let falCtx := p3.1
  let s := { s with cfg := p3.2 }
  let p4 := s.newBlockWith falCtx baseLen
  let falBl := p4.1
  let s := p4.2
  let s := s.terminate (.branch baseCtx (.move vcond) (vh1, truBl) (vh2, falBl))
  (⟨base, truCtx, truBl, falCtx, falBl⟩, s)

/-- Push n PopLabelGroup markers onto the current block (the Rust loop
for the range labels.len()..reset.0, which is empty whenever the label
stack grew; transcribed as the truncated subtraction count). -/
def pushPopN : Nat → BState → BState
  | 0, s => s
  | k+1, s => pushPopN k (s.pushStmt .popLabelGroup)

/-- The label-block setup of rvalue_block: when the block declares
labels, allocate the optional fresh destination (extending the context),
the dominated join block, remember the extended context as the join's
context and restore the base context; otherwise nothing.  Returns the
optional join data and the after-context. -/
def rvalueBlockSetup (stmts : List HStmt) (retEty : Option Unit) (gen : GenId)
    (muts : List HVarId) (s : BState) :
    (Option (JoinBlock × BlockDest) × CtxId) × BState :=
  let baseCtx := s.cur_ctx
  if stmts.any HStmt.isLabel then
    let dp : BlockDest × BState :=
      match retEty with
      | some _ =>
        let p := s.freshVar
        (some p.1, p.2.extendCtx p.1 true (none, MTy.unit))
      | none => (none, s)
    let s := dp.2
    let q := s.dominatedBlock baseCtx
    let afterCtx := q.2.cur_ctx
    ((some (⟨q.1, gen, muts⟩, dp.1), afterCtx), { q.2 with cur_ctx := baseCtx })
  else ((none, baseCtx), s)

/-- The finish of rvalue_block after the stacks are restored: with a join
block, record it in the tree, jump to it from the straight-line path when
that path did not diverge, and continue at the join; without one, unwrap
the plain rvalue. -/
def rvalueBlockJoin (r : BRes (Sum Operand RValue))
    (jbOpt : Option (JoinBlock × BlockDest)) (afterCtx : CtxId) (gen : GenId)
    (s : BState) : BRes RValue × BState :=
  match jbOpt with
  | some (jb, destOpt) =>
    let s := { s with tree := s.tree.push jb.tgt }
    let joined : BRes Unit × BState :=
      match r with
      | .ok (Sum.inl o) =>
        let args :=
          match destOpt with
          | none => []
          | some v => [(v, true, o)]
        joinF jb args s
      | .ok (Sum.inr _) => (.fault, s)
      | .div => (.ok (), s)
      | .fault => (.fault, s)
    match joined with
    | (.ok _, s) =>
      let s := s.setCur (jb.tgt, afterCtx, gen)
      let out : RValue :=
        match destOpt with
        | none => Operand.constUnit
        | some v => Operand.move v
      (.ok out, s)
    | (_, s) => (.fault, s)
  | none =>
    match r with
    | .ok (Sum.inr rv) => (.ok rv, s)
    | .ok (Sum.inl _) => (.fault, s)
    | .div => (.div, s)
    | .fault => (.fault, s)

mutual

/-- BuildMir::expr: statement-position / destination-position lowering. -/
def expr : Nat → HExpr → Dest → BState → BRes Unit × BState
  | 0, _, _, s => (.fault, s)
  | fuel+1, e, dest, s =>
    match e with
    | .hif hyp cond etru efal gen muts trivial =>
      exprIf fuel hyp cond etru efal gen muts trivial dest s
    | _ =>
      match dest with
      | none =>
        match e with
        | .hif _ _ _ _ _ _ _ => (.fault, s)
        | .unit => (.ok (), s)
        | .boolE _ => (.ok (), s)
        | .varE _ _ => (.ok (), s)
        | .blockE bl =>
          match rvalueBlock fuel bl (some ()) s with
          | (.ok _, s) => (.ok (), s)
          | (.div, s) => (.div, s)
          | (.fault, s) => (.fault, s)
        | .brk lab e2 =>
          match labelRFind s.labels lab with
          | none => (.fault, s)
          | some lgd =>
            match lgd.brk with
            | none => (.fault, s)
            | some (jb, bdest) =>
              match bdest with
              | none =>
                match expr fuel e2 none s with
                | (.ok _, s) =>
                  match joinF jb [] s with
                  | (.ok _, s) => (.div, s)
                  | (_, s) => (.fault, s)
                | (.div, s) => (.div, s)
                | (.fault, s) => (.fault, s)
              | some v =>
                match operand fuel e2 s with
                | (.ok o, s) =>
                  match joinF jb [(v, true, o)] s with
                  | (.ok _, s) => (.div, s)
                  | (_, s) => (.fault, s)
                | (.div, s) => (.div, s)
                | (.fault, s) => (.fault, s)
        | .ret =>
          match s.returns with
          | none => (.fault, s)
          | some rts =>
            match trHVars fuel rts.outs s with
            | (.ok outs, s) => (.div, s.terminate (.ret outs []))
            | (_, s) => (.fault, s)
        | .failE => (.div, s.terminate .fail)
      | some d => exprSome fuel e d s

/-- The destination-position branch of BuildMir::expr (Some(dest)):
evaluate the rvalue, translate the destination, and push the Let. -/
def exprSome : Nat → HExpr → PreVar → BState → BRes Unit × BState
  | 0, _, _, s => (.fault, s)
  | fuel+1, e, d, s =>
    match rvalue fuel e s with
    | (.ok rv, s) =>
      match s.trPreVar d with
      | (.ok v, s) => (.ok (), s.pushStmt (.letS v none true MTy.unit rv))
      | (_, s) => (.fault, s)
    | (.div, s) => (.div, s)
    | (.fault, s) => (.fault, s)

/-- Translate a list of HVarIds at the current generation (the outs
translation in expr_return). -/
def trHVars : Nat → List HVarId → BState → BRes (List VarId) × BState
  | 0, _, s => (.fault, s)
  | _+1, [], s => (.ok [], s)
  | fuel+1, v :: rest, s =>
    match s.trHVar v with
    | (.ok v2, s) =>
      match trHVars fuel rest s with
      | (.ok vs, s) => (.ok (v2 :: vs), s)
      | (r, s) =>
        match r with
        | .div => (.div, s)
        | _ => (.fault, s)
    | (_, s) => (.fault, s)

/-- BuildMir::as_temp: lower into a fresh variable. -/
def asTemp : Nat → HExpr → BState → BRes VarId × BState
  | 0, _, s => (.fault, s)
  | fuel+1, e, s =>
    let p := s.freshVar
    match expr fuel e (some (.ok p.1)) p.2 with
    | (.ok _, s) => (.ok p.1, s)
    | (.div, s) => (.div, s)
    | (.fault, s) => (.fault, s)

/-- BuildMir::operand: variables become copies of their place (the types
of the fragment are copyable), constants stay immediate, and everything
else is materialized as a temporary. -/
def operand : Nat → HExpr → BState → BRes Operand × BState
  | 0, _, s => (.fault, s)
  | fuel+1, e, s =>
    match e with
    | .varE v g =>
      match s.trGenHVar v g with
      | (.ok v2, s) => (.ok (.copy (s.placeOfVar v2)), s)
      | (_, s) => (.fault, s)
    | .unit => (.ok .constUnit, s)
    | .boolE b => (.ok (.constBool b), s)
    | _ =>
      match asTemp fuel e s with
      | (.ok v, s) => (.ok (.move v), s)
      | (.div, s) => (.div, s)
      | (.fault, s) => (.fault, s)

/-- BuildMir::rvalue. -/
def rvalue : Nat → HExpr → BState → BRes RValue × BState
  | 0, _, s => (.fault, s)
  | fuel+1, e, s =>
    match e with
    | .blockE bl => rvalueBlock fuel bl (some ()) s
    | .brk _ _ =>
      match expr fuel e none s with
      | (.ok _, s) => (.fault, s)
      | (.div, s) => (.div, s)
      | (.fault, s) => (.fault, s)
    | .ret =>
      match expr fuel e none s with
      | (.ok _, s) => (.fault, s)
      | (.div, s) => (.div, s)
      | (.fault, s) => (.fault, s)
    | .failE =>
      match expr fuel e none s with
      | (.ok _, s) => (.fault, s)
      | (.div, s) => (.div, s)
      | (.fault, s) => (.fault, s)
    | _ =>
      match operand fuel e s with
      | (.ok o, s) => (.ok o, s)
      | (.div, s) => (.div, s)
      | (.fault, s) => (.fault, s)

/-- BuildMir::stmt for one statement. -/
def stmtF : Nat → HStmt → Option (JoinBlock × BlockDest) → BState → BRes Unit × BState
  | 0, _, _, s => (.fault, s)
  | fuel+1, .slet v rhs, _, s => letStmt fuel false v rhs s
  | fuel+1, .sexpr e, _, s => expr fuel e none s
  | _+1, .slabel v hasJump, brk, s =>
    match brk with
    | none => (.fault, s)
    | some (jb, dest) =>
      if hasJump then
        let base := s.cur
        let baseCtx := s.cur_ctx
        let baseGen := s.ts.cur_gen
        let s := s.pushStmt (.labelGroup [] baseCtx)
        let s := { s with tree := s.tree.pushGroup [] }
        let lgd : LabelGroupData :=
          { jumps := some ((baseGen, jb.muts), []), brk := some (jb, dest) }
        let s := { s with labels := s.labels ++ [(v, lgd)] }
        (.ok (), s.setCur base)
      else
        let lgd : LabelGroupData := { jumps := none, brk := some (jb, dest) }
        (.ok (), { s with labels := s.labels ++ [(v, lgd)] })

/-- The statement loop of rvalue_block. -/
def stmtsF : Nat → List HStmt → Option (JoinBlock × BlockDest) → BState → BRes Unit × BState
  | 0, _, _, s => (.fault, s)
  | _+1, [], _, s => (.ok (), s)
  | fuel+1, st :: rest, brk, s =>
    match stmtF fuel st brk s with
    | (.ok _, s) => stmtsF fuel rest brk s
    | (.div, s) => (.div, s)
    | (.fault, s) => (.fault, s)

/-- BuildMir::let_stmt for a plain-name pattern (the struct-call special
case does not arise in the fragment): lower the right-hand side into the
pending destination, translate it, and run the name case of tup_pat. -/
def letStmt : Nat → Bool → HVarId → HExpr → BState → BRes Unit × BState
  | 0, _, _, _, s => (.fault, s)
  | fuel+1, global, v, rhs, s =>
    match expr fuel rhs (some (.pre v)) s with
    | (.ok _, s) =>
      match s.trPreVar (.pre v) with
      | (.ok v2, s) => (.ok (), tupPatName global v v2 s)
      | (_, s) => (.fault, s)
    | (.div, s) => (.div, s)
    | (.fault, s) => (.fault, s)

/-- BuildMir::rvalue_block (lines 1296-1345): remember the label-stack and
group-stack heights, register the block's generation, allocate the join
block and optional destination when the block declares labels, run the
statements and the tail (the tail becomes an operand feeding the join when
labels are present), push the PopLabelGroup markers, restore both stacks
to their remembered heights, and finish through the join block when one
was allocated (even when the straight-line path diverged). -/
def rvalueBlock : Nat → HBlock → Option Unit → BState → BRes RValue × BState
  | 0, _, _, s => (.fault, s)
  | fuel+1, .mk stmts tail gen muts, retEty, s =>
    let rl := s.labels.length
    let rg := s.tree.groups.length
    let s := s.tryAddGen s.ts.cur_gen gen
    let setup := rvalueBlockSetup stmts retEty gen muts s
    let jbOpt := setup.1.1
    let afterCtx := setup.1.2
    let s := setup.2
    match rvalueBlockInner fuel stmts tail jbOpt rl s with
    | (.fault, s) => (.fault, s)
    | (r, s) =>
      let s := { s with labels := s.labels.take rl, tree := s.tree.truncate rg }
      rvalueBlockJoin r jbOpt afterCtx gen s

/-- The straight-line body of rvalue_block: run the statements, then the
tail (an operand feeding the join when a join block exists, an rvalue
otherwise), then push the PopLabelGroup markers. -/
def rvalueBlockInner : Nat → List HStmt → Option HExpr →
    Option (JoinBlock × BlockDest) → Nat → BState → BRes (Sum Operand RValue) × BState
  | 0, _, _, _, _, s => (.fault, s)
  | fuel+1, stmts, tail, jbOpt, rl, s =>
  match stmtsF fuel stmts jbOpt s with
  | (.ok _, s) =>
    let rvres : BRes (Sum Operand RValue) × BState :=
      if jbOpt.isSome then
        match tail with
        | some e =>
          match operand fuel e s with
          | (.ok o, s) => (.ok (Sum.inl o), s)
          | (.div, s) => (.div, s)
          | (.fault, s) => (.fault, s)
        | none => (.ok (Sum.inl Operand.constUnit), s)
      else
        match tail with
        | some e =>
          match rvalue fuel e s with
          | (.ok rv, s) => (.ok (Sum.inr rv), s)
          | (.div, s) => (.div, s)
          | (.fault, s) => (.fault, s)
        | none => (.ok (Sum.inr Operand.constUnit), s)
    match rvres with
    | (.ok rv, s) => (.ok rv, pushPopN (rl - s.labels.length) s)
    | (.div, s) => (.div, s)
    | (.fault, s) => (.fault, s)
  | (.div, s) => (.div, s)
  | (.fault, s) => (.fault, s)

/-- The hypothesis-variable setup of expr_if's non-trivial path: fresh
variables when no hypothesis pair is supplied, otherwise the translations
of the pair at the current generation. -/
def exprIfHyp : Nat → Option (HVarId × HVarId) → BState → BRes (VarId × VarId) × BState
  | 0, _, s => (.fault, s)
  | _+1, none, s =>
    let p := s.freshVar
    let q := p.2.freshVar
    (.ok (p.1, q.1), q.2)
  | _+1, some hp, s =>
    match s.trHVar hp.1 with
    | (.ok v1, s) =>
      match s.trHVar hp.2 with
      | (.ok v2, s) => (.ok (v1, v2), s)
      | (_, s) => (.fault, s)
    | (_, s) => (.fault, s)

/-- The optional hypothesis-witness binding of expr_if's trivial path:
the chosen side's hypothesis variable is bound to itrue at type Pure(pe). -/
def trivialWitness : Nat → Option (HVarId × HVarId) → Bool → VarId → BState →
    BRes Unit × BState
  | 0, _, _, _, s => (.fault, s)
  | _+1, none, _, _, s => (.ok (), s)
  | _+1, some hp, b, vcond, s =>
    match s.trHVar (if b then hp.1 else hp.2) with
    | (.ok vh, s) =>
      (.ok (), s.pushStmt
        (.letS vh (some MExpr.unit) false (MTy.pureT (MExpr.var vcond)) Operand.constITrue))
    | (_, s) => (.fault, s)

/-- BuildMir::expr_if (lines 1348-1457). -/
def exprIf : Nat → Option (HVarId × HVarId) → HExpr → HExpr → HExpr → GenId →
    List HVarId → Option Bool → Dest → BState → BRes Unit × BState
  | 0, _, _, _, _, _, _, _, _, s => (.fault, s)
  | fuel+1, hyp, cond, etru, efal, gen, muts, trivial, dest, s =>
    match asTemp fuel cond s with
    | (.div, s) => (.div, s)
    | (.fault, s) => (.fault, s)
    | (.ok vcond, s) =>
      match trivial with
      | some b =>
        match trivialWitness fuel hyp b vcond s with
        | (.ok _, s) => expr fuel (if b then etru else efal) dest s
        | (_, s) => (.fault, s)
      | none =>
        match exprIfHyp fuel hyp s with
        | (.ok (vh1, vh2), s) =>
          let fr := exprIfSplit vcond vh1 vh2 gen s
          let s := fr.2
          match exprIfDest fuel dest gen s with
          | (.ok (transV, dest2), s) =>
            let s := s.setCur (fr.1.truBl, fr.1.truCtx, fr.1.base.2.2)
            match expr fuel etru dest2 s with
            | (.fault, s) => (.fault, s)
            | (truRes, s) =>
              let truPos := s.cur
              let s := s.setCur (fr.1.falBl, fr.1.falCtx, fr.1.base.2.2)
              match expr fuel efal dest2 s with
              | (.fault, s) => (.fault, s)
              | (falRes, s) =>
                let falPos := s.cur
                match truRes, falRes with
                | .div, .div => (.div, s)
                | .ok _, .div => (.ok (), s.setCur truPos)
                | .div, .ok _ => (.ok (), s.setCur falPos)
                | .ok _, .ok _ =>
                  let s := s.setCur fr.1.base
                  let s :=
                    match transV with
                    | some v => s.extendCtx v true (none, MTy.unit)
                    | none => s
                  let afterCtx := s.cur_ctx
                  let q := s.dominatedBlock fr.1.base.2.1
                  let jb : JoinBlock := ⟨q.1, gen, muts⟩
                  let s := q.2.setCur truPos
                  let args :=
                    match transV with
                    | none => []
                    | some v => [(v, true, Operand.move v)]
                  match joinF jb args s with
                  | (.ok _, s) =>
                    match joinF jb args (s.setCur falPos) with
                    | (.ok _, s) =>
                      let s := { s with tree := s.tree.push jb.tgt }
                      (.ok (), s.setCur (jb.tgt, afterCtx, gen))
                    | (_, s) => (.fault, s)
                  | (_, s) => (.fault, s)
                | _, _ => (.fault, s)
          | (_, s) => (.fault, s)
        | (_, s) => (.fault, s)

/-- The destination setup of expr_if's non-trivial path: the merged
destination translated at the target generation, and the concrete Dest
passed to both arms. -/
def exprIfDest : Nat → Dest → GenId → BState → BRes (Option VarId × Dest) × BState
  | 0, _, _, s => (.fault, s)
  | _+1, none, _, s => (.ok (none, none), s)
  | _+1, some v, gen, s =>
    match s.trGenPreVar v gen with
    | (.ok x, s) => (.ok (some x, some (.ok x)), s)
    | (_, s) => (.fault, s)

/-- BuildMir::block: rvalue_block followed by the optional binding of the
result into the destination. -/
def blockF : Nat → HBlock → Option Unit → Dest → BState → BRes Unit × BState
  | 0, _, _, _, s => (.fault, s)
  | fuel+1, bl, ety, dest, s =>
    match rvalueBlock fuel bl ety s with
    | (.ok rv, s) =>
      match ety, dest with
      | some _, some d =>
        match s.trPreVar d with
        | (.ok v, s) => (.ok (), s.pushStmt (.letS v none true MTy.unit rv))
        | (_, s) => (.fault, s)
      | _, _ => (.ok (), s)
    | (.div, s) => (.div, s)
    | (.fault, s) => (.fault, s)

end

/-!
Item assembly (BuildMir::build_item, lines 1712-1778, and
Initializer::default). -/

/-- The accumulated global initializer (struct Initializer): its CFG, the
registered globals, and the current position (a Block value: Diverged once
some global's initializer diverged). -/
structure InitializerS where
  cfg : Cfg
  globals : List (Nat × Bool × VarId × MTy)
  cur : BRes (BlockId × CtxId × GenId)

/-- Initializer::default: a fresh CFG with one entry block at the root
context, position at its start. -/
def InitializerS.default0 : InitializerS :=
  let p := Cfg.default0.newBlock 0 0
  { cfg := p.2, globals := [], cur := .ok (p.1, 0, GenId.ROOT) }

/-- BuildMir::new: a fresh builder; the translator starts with the
default (zero) variable counter, the root generation registered, cursor at
the entry block id and root context. -/
def buildMirNew : BState :=
  { cfg := Cfg.default0
    ts := { gen_vars := [(GenId.ROOT, { dominator := GenId.ROOT, value := [], cache := [] })],
            locations := [], located := [], next_var := 0, cur_gen := GenId.ROOT }
    vars := []
    labels := []
    tree := { groups := [], ordered := [] }
    returns := none
    globals := []
    cur_block := 0
    cur_ctx := 0 }

/-- The outcome of lowering a procedure item: its finished CFG. -/
structure ProcResult where
  cfg : Cfg
deriving DecidableEq

/-- The Proc branch of build_item for a procedure with no formal
arguments, no out-parameters and no returns: push_args on the empty list
allocates the entry block (asserted to be BlockId::ENTRY), the procedure
generation is registered, return data installed, the body lowered with
block(span, body, None, None), which must diverge (the non-diverging
branch is the unreachable panic); the counter high-water mark is stored
and the finished CFG returned.  The fresh builder starts the variable
counter at the default value (it is not seeded from the initializer). -/
def buildItemProc (fuel : Nat) (gen : GenId) (body : HBlock) : BRes ProcResult :=
  let s := buildMirNew
  let parent := s.cfg.ctxLen s.cur_ctx
  let p := s.newBlock parent
  let s := { p.2 with cur_block := p.1 }
  if p.1 ≠ 0 then .fault else
  let baseCtx := s.cur_ctx
  let s := s.tryAddGen GenId.ROOT gen
  let s := { s with ts := { s.ts with cur_gen := gen } }
  let s := { s with returns := some { outs := [], args := [] } }
  let s := { s with ts := { s.ts with cur_gen := GenId.ROOT } }
  let s := { s with cur_ctx := baseCtx }
  match blockF fuel body none none s with
  | (.div, s) =>
    let s := { s with cfg := { s.cfg with max_var := s.ts.next_var } }
    if s.tree.groups.isEmpty then .ok { cfg := s.cfg } else .fault
  | (.ok _, _) => .fault
  | (.fault, _) => .fault

/-- The Global branch of build_item for a plain-name binding: the builder
swaps in the initializer's CFG and globals, resumes the variable counter
from the stored high-water mark, runs let_stmt at the saved position, and
stores the updated counter and position back; none models a panic during
lowering (Rust aborts). -/
def buildItemGlobal (fuel : Nat) (init : InitializerS) (v : HVarId) (rhs : HExpr) :
    Option InitializerS :=
  let s := buildMirNew
  let s := { s with cfg := init.cfg, globals := init.globals }
  let s := { s with ts := { s.ts with next_var := s.cfg.max_var } }
  let step : BRes (BlockId × CtxId × GenId) × BState :=
    match init.cur with
    | .ok pos =>
      let s := s.setCur pos
      match letStmt fuel true v rhs s with
      | (.ok _, s) => (.ok s.cur, s)
      | (.div, s) => (.div, s)
      | (.fault, s) => (.fault, s)
    | .div => (.div, s)
    | .fault => (.fault, s)
  match step.1 with
  | .fault => none
  | r =>
    let s := step.2
    let s := { s with cfg := { s.cfg with max_var := s.ts.next_var } }
    some { cfg := s.cfg, globals := s.globals, cur := r }

/-!
Syntactic divergence: the input-contract predicate used for claims C2 and
C9.  An expression ends in divergence when every control path out of it
ends in a return, trap or break; a block does when it declares no labels
and its tail diverges. -/

mutual
/-- Conservative syntactic check that lowering an expression always
produces the Diverged sentinel (or a fault). -/
def eDiv : HExpr → Bool
  | .ret => true
  | .failE => true
  | .brk _ _ => true
  | .hif _ _ t f _ _ trivial =>
    match trivial with
    | some b => if b then eDiv t else eDiv f
    | none => eDiv t && eDiv f
  | .blockE bl => bDiv bl
  | _ => false

/-- Conservative syntactic check that lowering a block diverges: no label
statements (a label's join would catch the divergence) and a diverging
tail expression. -/
def bDiv : HBlock → Bool
  | .mk stmts tail _ _ =>
    stmts.all (fun st => !st.isLabel) &&
    match tail with
    | some e => eDiv e
    | none => false
end

/-- Whether some statement of the CFG is a Let binding the given
variable. -/
def cfgBindsVar (c : Cfg) (v : VarId) : Bool :=
  c.blocks.any (fun b => b.stmts.any (fun st =>
    match st with
    | .letS v2 _ _ _ _ => v2 = v
    | _ => false))

/-!
Fixture states for witnesses and counterexamples. -/

/-- A builder state as at the start of a procedure body: the entry block
allocated, the cursor on it, returning allowed. -/
def sW : BState :=
  let s := buildMirNew
  let p := s.newBlock 0
  { p.2 with cur_block := p.1, returns := some { outs := [], args := [] } }

/-- A translator state with two sibling generations below the root and no
caches: the confluence witness fixture. -/
def wS : TrState :=
  { gen_vars :=
      [(0, { dominator := 0, value := [], cache := [] }),
       (1, { dominator := 0, value := [], cache := [] }),
       (2, { dominator := 0, value := [], cache := [] })]
    locations := [], located := [], next_var := 0, cur_gen := 0 }

/-- A builder state where the source variable 7 resolves to different
identifiers at the current generation and at generation 1, while the
join context (the root context, empty) does not contain the
current-generation identifier: the join-minimality counterexample
fixture. -/
def cex3 : BState :=
  { buildMirNew with ts :=
      { gen_vars :=
          [(0, { dominator := 0, value := [], cache := [] }),
           (1, { dominator := 0, value := [(7, 5)], cache := [] })]
        locations := [], located := [], next_var := 100, cur_gen := 0 } }

/-- The body of the procedure item of the counter counterexample: binds
one local and returns. -/
def bodyW : HBlock := .mk [.slet 9 (.boolE true)] (some .ret) 2 []

/-- Whether a lowered global item binds CFG variable 0. -/
def globalBinds0 (o : Option InitializerS) : Bool :=
  match o with
  | some i => cfgBindsVar i.cfg 0
  | none => false

/-- Whether a lowered procedure item binds CFG variable 0. -/
def procBinds0 (r : BRes ProcResult) : Bool :=
  match r with
  | .ok p => cfgBindsVar p.cfg 0
  | _ => false

/-- Frame witness fixture: a block declaring two labels (one with jumps,
one without) whose tail is the unit value. -/
def wBl : HBlock := HBlock.mk [HStmt.slabel 5 true, HStmt.slabel 6 false] (some HExpr.unit) 1 []

/-- Divergence witness fixture: a label-free block ending in return. -/
def bodyD : HBlock := HBlock.mk [] (some HExpr.ret) 1 []

/-- The initializer produced by lowering the global binding of variable 4
to the literal true into a fresh initializer. -/
def i1W : InitializerS :=
  (buildItemGlobal 9 InitializerS.default0 4 (HExpr.boolE true)).getD InitializerS.default0

/-- Resolution preserves the generation table's structure: every
generation present before is present after with the same dominator and
rebinding map (only caches, locations and the counter change). -/
def GenPres (s s2 : TrState) : Prop :=
  ∀ g gm, alookup s.gen_vars g = some gm →
    ∃ gm2, alookup s2.gen_vars g = some gm2 ∧
      gm2.dominator = gm.dominator ∧ gm2.value = gm.value

/-- The quantities that only grow across lowering calls: the label-stack
height, the open-group-stack height and the variable counter. -/
def Grows (s s2 : BState) : Prop :=
  s.labels.length ≤ s2.labels.length ∧
  s.tree.groups.length ≤ s2.tree.groups.length ∧
  s.ts.next_var ≤ s2.ts.next_var

/-- Resolution witness fixture: a root-only table with one cached entry
(variable 5 resolves to 9) and counter 2. -/
def wC : TrState :=
  { gen_vars := [(0, { dominator := 0, value := [], cache := [(5, 9)] })]
    locations := [], located := [], next_var := 2, cur_gen := 0 }

/-- The state after resolving variable 6 at the root in wC: 6 gets the
fresh identifier 2, which is cached at the root and recorded as 6's
location. -/
def wC2 : TrState :=
  { gen_vars :=
      [(0, { dominator := 0, value := [], cache := [(6, 2), (5, 9)] }),
       (0, { dominator := 0, value := [], cache := [(5, 9)] })]
    locations := [(6, 2)], located := [], next_var := 3, cur_gen := 0 }

/-- Intermediate states of the C2 witness run: after lowering the
condition to a temporary. -/
def c2s1 : BState := (asTemp 6 (HExpr.boolE true) sW).2

/-- After allocating the two hypothesis variables. -/
def c2s2 : BState := (exprIfHyp 6 none c2s1).2

/-- The frame of the witness conditional. -/
def c2fr : IfFrame := (exprIfSplit 0 1 2 1 c2s2).1

/-- After the context/block setup. -/
def c2s3 : BState := (exprIfSplit 0 1 2 1 c2s2).2

/-- After the destination setup. -/
def c2s4 : BState := (exprIfDest 6 none 1 c2s3).2

/-- After lowering the diverging true arm. -/
def c2s5 : BState :=
  (expr 6 HExpr.ret none (c2s4.setCur (c2fr.truBl, c2fr.truCtx, c2fr.base.2.2))).2

/-- After lowering the diverging false arm. -/
def c2s6 : BState :=
  (expr 6 HExpr.failE none (c2s5.setCur (c2fr.falBl, c2fr.falCtx, c2fr.base.2.2))).2

/-- Memo-model witness fixture: an empty memo state with empty
substitution map. -/
def m6s : MState Nat := { memo := [], cur_gen := 0, substEmpty := true }

/-- The memo state after caching value 7 generation-independently for
node 3. -/
def m6s2 : MState Nat := { memo := [(3, Sum.inl 7)], cur_gen := 0, substEmpty := true }

/-- A memo state where node 3 already carries a per-generation entry for
generation 0, with the current generation 1: the state in which a HAS_VAR
node is re-translated at a second generation. -/
def m6s3 : MState Nat :=
  { memo := [(3, Sum.inr [(0, 7)])], cur_gen := 1, substEmpty := true }

/-- The memo state after the second-generation translation of node 3
added value 9 under generation 1 to the node's per-generation map. -/
def m6s4 : MState Nat :=
  { memo := [(3, Sum.inr [(1, 9), (0, 7)]), (3, Sum.inr [(0, 7)])],
    cur_gen := 1, substEmpty := true }

/-- All lowering functions at a given fuel only grow the label stack, the
group stack and the variable counter. -/
def GrowsAll (fuel : Nat) : Prop :=
  (∀ e dest s, Grows s (expr fuel e dest s).2) ∧
  (∀ e d s, Grows s (exprSome fuel e d s).2) ∧
  (∀ vs s, Grows s (trHVars fuel vs s).2) ∧
  (∀ e s, Grows s (asTemp fuel e s).2) ∧
  (∀ e s, Grows s (operand fuel e s).2) ∧
  (∀ e s, Grows s (rvalue fuel e s).2) ∧
  (∀ st brk s, Grows s (stmtF fuel st brk s).2) ∧
  (∀ sts brk s, Grows s (stmtsF fuel sts brk s).2) ∧
  (∀ g v rhs s, Grows s (letStmt fuel g v rhs s).2) ∧
  (∀ hyp s, Grows s (exprIfHyp fuel hyp s).2) ∧
  (∀ hyp b vc s, Grows s (trivialWitness fuel hyp b vc s).2) ∧
  (∀ dest gen s, Grows s (exprIfDest fuel dest gen s).2) ∧
  (∀ hyp cond etru efal gen muts triv dest s,
    Grows s (exprIf fuel hyp cond etru efal gen muts triv dest s).2) ∧
  (∀ stmts tail jbOpt rl s, Grows s (rvalueBlockInner fuel stmts tail jbOpt rl s).2) ∧
  (∀ bl retEty s, Grows s (rvalueBlock fuel bl retEty s).2) ∧
  (∀ bl ety dest s, Grows s (blockF fuel bl ety dest s).2)

/-- All lowering functions at a given fuel return the Diverged sentinel or
a fault (never a value) on inputs that syntactically end in divergence. -/
def DivAll (fuel : Nat) : Prop :=
  (∀ e dest s, eDiv e = true →
    (expr fuel e dest s).1 = BRes.div ∨ (expr fuel e dest s).1 = BRes.fault) ∧
  (∀ e d s, eDiv e = true →
    (exprSome fuel e d s).1 = BRes.div ∨ (exprSome fuel e d s).1 = BRes.fault) ∧
  (∀ e s, eDiv e = true →
    (asTemp fuel e s).1 = BRes.div ∨ (asTemp fuel e s).1 = BRes.fault) ∧
  (∀ e s, eDiv e = true →
    (operand fuel e s).1 = BRes.div ∨ (operand fuel e s).1 = BRes.fault) ∧
  (∀ e s, eDiv e = true →
    (rvalue fuel e s).1 = BRes.div ∨ (rvalue fuel e s).1 = BRes.fault) ∧
  (∀ hyp cond etru efal gen muts triv dest s,
    eDiv (HExpr.hif hyp cond etru efal gen muts triv) = true →
    (exprIf fuel hyp cond etru efal gen muts triv dest s).1 = BRes.div ∨
    (exprIf fuel hyp cond etru efal gen muts triv dest s).1 = BRes.fault) ∧
  (∀ stmts e rl s, eDiv e = true →
    (rvalueBlockInner fuel stmts (some e) none rl s).1 = BRes.div ∨
    (rvalueBlockInner fuel stmts (some e) none rl s).1 = BRes.fault) ∧
  (∀ bl retEty s, bDiv bl = true →
    (rvalueBlock fuel bl retEty s).1 = BRes.div ∨
    (rvalueBlock fuel bl retEty s).1 = BRes.fault) ∧
  (∀ bl ety dest s, bDiv bl = true →
    (blockF fuel bl ety dest s).1 = BRes.div ∨ (blockF fuel bl ety dest s).1 = BRes.fault)

/-!
Theorems.  General association-list facts first. -/

theorem alookup_aupd {β : Type} (l : List (Nat × β)) (k : Nat) (v : β) (k' : Nat) :
    alookup (aupd l k v) k' = if k' = k then some v else alookup l k' := by
  simp [aupd, alookup]

theorem grows_refl (s : BState) : Grows s s :=
  ⟨Nat.le_refl _, Nat.le_refl _, Nat.le_refl _⟩

theorem grows_trans {s1 s2 s3 : BState} (h1 : Grows s1 s2) (h2 : Grows s2 s3) :
    Grows s1 s3 :=
  ⟨Nat.le_trans h1.1 h2.1, Nat.le_trans h1.2.1 h2.2.1, Nat.le_trans h1.2.2 h2.2.2⟩

/-!
Claim C8: unresolved inference placeholders are fatal. -/

/-- C8: if translation reaches an Infer node that the inference context
does not solve, or no inference context is available, the lowering pass
aborts with a fatal internal error and produces no output: tyMake returns
none on every type containing a reachable unsolved placeholder. -/
theorem infer_unsolved_fatal (fuel : Nat) (mv : Option MVars) (t : HTy)
    (h : hasUnsolved mv t = true) : tyMake fuel mv t = none := by
  induction t generalizing fuel with
  | unit => simp [hasUnsolved] at h
  | bool => simp [hasUnsolved] at h
  | array t n ih =>
    cases fuel with
    | zero => rfl
    | succ f =>
      have ht : hasUnsolved mv t = true := h
      simp [tyMake, ih f ht]
  | infer v =>
    cases fuel with
    | zero => rfl
    | succ f =>
      cases mv with
      | none => rfl
      | some m =>
        have h2 : (alookup m.ty v).isNone = true := h
        cases hl : alookup m.ty v with
        | some ty => rw [hl] at h2; simp at h2
        | none => simp [tyMake, hl]

/-- Witness for C8 at a concrete unsolved metavariable with an empty
inference context. -/
theorem infer_unsolved_fatal_witness :
    hasUnsolved (some { ty := [] }) (HTy.infer 0) = true ∧
      tyMake 5 (some { ty := [] }) (HTy.infer 0) = none :=
  ⟨by decide, infer_unsolved_fatal 5 (some { ty := [] }) (HTy.infer 0) (by decide)⟩

/-!
Claim C6: the memoization discipline of the structural translator. -/

/-- C6: the memoizing wrapper consults and updates the memo table only
when the substitution map is empty: a non-empty map re-translates and the
final state is exactly make's state, with nothing cached.  With an empty
map, a cache hit (a generation-independent entry, or a per-generation
entry at the current generation) is returned without running make.  On a
miss make runs, and the table entry left for the node by make's recursive
translations decides the store: with no entry, a node without the
variable-reference flag receives a single generation-independent (inl)
entry while a node with the flag starts a per-generation (inr) map holding
its value under the generation captured when the wrapper was entered; with
an existing per-generation entry (a HAS_VAR node re-translated at a new
generation), the value is inserted into that map under the entered
generation, preserving the other generations; an existing
generation-independent entry after a miss is the unreachable panic.  An
inl entry is returned in any state at any current generation, an inr entry
exactly at the generation it holds. -/
theorem translate_memo_spec {V : Type} (make : MState V → V × MState V) (n : MNode)
    (s : MState V) :
    (s.substEmpty = false → trNode make n s = some (make s)) ∧
    (∀ r, s.substEmpty = true → memoHit s n = some r → trNode make n s = some (r, s)) ∧
    (s.substEmpty = true → memoHit s n = none →
      alookup (make s).2.memo n.id = none → n.hasVar = false →
      trNode make n s =
        some ((make s).1,
          { (make s).2 with memo := aupd (make s).2.memo n.id (Sum.inl (make s).1) })) ∧
    (s.substEmpty = true → memoHit s n = none →
      alookup (make s).2.memo n.id = none → n.hasVar = true →
      trNode make n s =
        some ((make s).1,
          { (make s).2 with
              memo := aupd (make s).2.memo n.id (Sum.inr [(s.cur_gen, (make s).1)]) })) ∧
    (∀ m, s.substEmpty = true → memoHit s n = none →
      alookup (make s).2.memo n.id = some (Sum.inr m) →
      trNode make n s =
        some ((make s).1,
          { (make s).2 with
              memo := aupd (make s).2.memo n.id
                (Sum.inr (aupd m s.cur_gen (make s).1)) })) ∧
    (∀ r, s.substEmpty = true → memoHit s n = none →
      alookup (make s).2.memo n.id = some (Sum.inl r) →
      trNode make n s = none) ∧
    (∀ (r : V) (s2 : MState V), s2.substEmpty = true →
      alookup s2.memo n.id = some (Sum.inl r) → trNode make n s2 = some (r, s2)) ∧
    (∀ (r : V) (m : List (GenId × V)) (s2 : MState V), s2.substEmpty = true →
      alookup s2.memo n.id = some (Sum.inr m) → alookup m s2.cur_gen = some r →
      trNode make n s2 = some (r, s2)) := by
  refine ⟨?_, ?_, ?_, ?_, ?_, ?_, ?_, ?_⟩
  · intro hsub
    simp [trNode, hsub]
  · intro r hsub hhit
    simp [trNode, hsub, hhit]
  · intro hsub hmiss hkey hvar
    rcases hmk : make s with ⟨r, s1⟩
    have hkey2 : alookup s1.memo n.id = none := by rw [hmk] at hkey; exact hkey
    simp [trNode, hsub, hmiss, hmk, hkey2, hvar]
  · intro hsub hmiss hkey hvar
    rcases hmk : make s with ⟨r, s1⟩
    have hkey2 : alookup s1.memo n.id = none := by rw [hmk] at hkey; exact hkey
    simp [trNode, hsub, hmiss, hmk, hkey2, hvar]
  · intro m hsub hmiss hocc
    rcases hmk : make s with ⟨r, s1⟩
    have hocc2 : alookup s1.memo n.id = some (Sum.inr m) := by
      rw [hmk] at hocc; exact hocc
    simp [trNode, hsub, hmiss, hmk, hocc2]
  · intro r hsub hmiss hocc
    rcases hmk : make s with ⟨r2, s1⟩
    have hocc2 : alookup s1.memo n.id = some (Sum.inl r) := by
      rw [hmk] at hocc; exact hocc
    simp [trNode, hsub, hmiss, hmk, hocc2]
  · intro r s2 hsub hentry
    have hhit : memoHit s2 n = some r := by simp [memoHit, hentry]
    simp [trNode, hsub, hhit]
  · intro r m s2 hsub hentry hg
    have hhit : memoHit s2 n = some r := by simp [memoHit, hentry, hg]
    simp [trNode, hsub, hhit]

/-- Witness for C6: node 3 carries the HAS_VAR flag and already has a
per-generation entry for generation 0; re-translating it at current
generation 1 misses the cache, runs make (returning 9) and inserts 9
under generation 1 into the node's existing per-generation map. -/
theorem translate_memo_spec_witness :
    trNode (fun s => (9, s)) { id := 3, hasVar := true } m6s3 = some (9, m6s4) := by
  have h := translate_memo_spec (V := Nat) (fun s => (9, s))
    { id := 3, hasVar := true } m6s3
  exact h.2.2.2.2.1 [(0, 7)] rfl (by decide) rfl

/-!
Facts about the translator state operations used by tr_var. -/

theorem genVars_recordLoc (s : TrState) (v : HVarId) (val : VarId) :
    (s.recordLoc v val).gen_vars = s.gen_vars := by
  cases h : alookup s.locations v <;> simp [TrState.recordLoc, h]

theorem cacheLookup_recordLoc (s : TrState) (v : HVarId) (val : VarId)
    (g : GenId) (v' : HVarId) :
    cacheLookup (s.recordLoc v val) g v' = cacheLookup s g v' := by
  simp [cacheLookup, genVars_recordLoc]

theorem nextVar_recordLoc (s : TrState) (v : HVarId) (val : VarId) :
    (s.recordLoc v val).next_var = s.next_var := by
  cases h : alookup s.locations v <;> simp [TrState.recordLoc, h]

theorem cacheLookup_cacheIns (s : TrState) (g : GenId) (v : HVarId) (val : VarId)
    (gm : GenMap) (hg : alookup s.gen_vars g = some gm) (g' : GenId) (v' : HVarId) :
    cacheLookup (s.cacheIns g v val) g' v' =
      if g' = g then (if v' = v then some val else alookup gm.cache v')
      else cacheLookup s g' v' := by
  by_cases hgg : g' = g <;>
    simp [TrState.cacheIns, hg, cacheLookup, alookup_aupd, aupd, alookup, hgg]

theorem cacheLookup_cacheIns_none (s : TrState) (g : GenId) (v : HVarId) (val : VarId)
    (hg : alookup s.gen_vars g = none) :
    s.cacheIns g v val = s := by
  simp [TrState.cacheIns, hg]

theorem nextVar_cacheIns (s : TrState) (g : GenId) (v : HVarId) (val : VarId) :
    (s.cacheIns g v val).next_var = s.next_var := by
  cases h : alookup s.gen_vars g <;> simp [TrState.cacheIns, h]

theorem genPres_refl (s : TrState) : GenPres s s :=
  fun _ gm h => ⟨gm, h, rfl, rfl⟩

theorem genPres_trans {s1 s2 s3 : TrState} (h1 : GenPres s1 s2) (h2 : GenPres s2 s3) :
    GenPres s1 s3 := by
  intro g gm h
  obtain ⟨gma, ha, hd, hv⟩ := h1 g gm h
  obtain ⟨gmb, hb, hd2, hv2⟩ := h2 g gma ha
  exact ⟨gmb, hb, hd2.trans hd, hv2.trans hv⟩

theorem genPres_cacheIns (s : TrState) (g : GenId) (v : HVarId) (val : VarId) :
    GenPres s (s.cacheIns g v val) := by
  intro g' gm' h
  cases hg : alookup s.gen_vars g with
  | none => simp [TrState.cacheIns, hg]; exact ⟨gm', h, rfl, rfl⟩
  | some gm =>
    by_cases hgg : g' = g
    · subst hgg
      rw [h] at hg
      cases hg
      refine ⟨{ gm' with cache := aupd gm'.cache v val }, ?_, rfl, rfl⟩
      simp [TrState.cacheIns, h, alookup_aupd]
    · refine ⟨gm', ?_, rfl, rfl⟩
      simp [TrState.cacheIns, hg, alookup_aupd, hgg, h]

theorem genPres_recordLoc (s : TrState) (v : HVarId) (val : VarId) :
    GenPres s (s.recordLoc v val) := by
  intro g gm h
  exact ⟨gm, by rw [genVars_recordLoc]; exact h, rfl, rfl⟩

/-- The common step shape of the tr_var lemmas: a successful resolution
is a cache hit, an explicit rebinding, a root allocation, or a dominator
resolution, the last three followed by the trVarFinish cache store. -/
theorem trVar_succ_cases {f : Nat} {v : HVarId} {g : GenId} {s : TrState}
    {val : VarId} {s2 : TrState} (h : trVar (f+1) v g s = some (val, s2)) :
    ∃ gm, alookup s.gen_vars g = some gm ∧
      ((alookup gm.cache v = some val ∧ s2 = s) ∨
       (alookup gm.cache v = none ∧
        ((∃ w, alookup gm.value v = some w ∧ val = w ∧
           s2 = (trVarFinish g v w s).2) ∨
         (alookup gm.value v = none ∧ g = GenId.ROOT ∧
          val = (TrState.freshVar s).1 ∧
          s2 = (trVarFinish g v (TrState.freshVar s).1 (TrState.freshVar s).2).2) ∨
         (alookup gm.value v = none ∧ g ≠ GenId.ROOT ∧
          ∃ p, trVar f v gm.dominator s = some p ∧ val = p.1 ∧
            s2 = (trVarFinish g v p.1 p.2).2)))) := by
  rw [trVar] at h
  cases hg : alookup s.gen_vars g with
  | none =>
    rw [hg] at h
    exact Option.noConfusion h
  | some gm =>
    simp only [hg] at h
    refine ⟨gm, rfl, ?_⟩
    cases hc : alookup gm.cache v with
    | some w =>
      simp only [hc, Option.some.injEq, Prod.mk.injEq] at h
      obtain ⟨h1, h2⟩ := h
      subst h1
      subst h2
      exact Or.inl ⟨rfl, rfl⟩
    | none =>
      simp only [hc] at h
      refine Or.inr ⟨rfl, ?_⟩
      cases hv : alookup gm.value v with
      | some w =>
        simp only [hv, Option.some.injEq] at h
        exact Or.inl ⟨w, rfl, (congrArg Prod.fst h).symm, (congrArg Prod.snd h).symm⟩
      | none =>
        simp only [hv] at h
        by_cases hroot : g = GenId.ROOT
        · rw [if_pos hroot] at h
          simp only [Option.some.injEq] at h
          exact Or.inr (Or.inl
            ⟨rfl, hroot, (congrArg Prod.fst h).symm, (congrArg Prod.snd h).symm⟩)
        · rw [if_neg hroot] at h
          cases hrec : trVar f v gm.dominator s with
          | none => rw [hrec] at h; exact Option.noConfusion h
          | some p =>
            rw [hrec] at h
            simp only [Option.map_some', Option.some.injEq] at h
            exact Or.inr (Or.inr
              ⟨rfl, hroot, p, rfl, (congrArg Prod.fst h).symm, (congrArg Prod.snd h).symm⟩)

theorem genPres_freshVar (s : TrState) : GenPres s (TrState.freshVar s).2 :=
  fun _ gm h => ⟨gm, h, rfl, rfl⟩

theorem genPres_finish (g : GenId) (v : HVarId) (val : VarId) (s1 : TrState) :
    GenPres s1 (trVarFinish g v val s1).2 :=
  genPres_trans (genPres_cacheIns _ _ _ _) (genPres_recordLoc _ _ _)

/-- Resolution preserves generation structure: dominators and rebinding
maps are never changed by tr_var, only caches, locations and the counter. -/
theorem trVar_genPres :
    ∀ (fuel : Nat) (v : HVarId) (g : GenId) (s : TrState) (val : VarId) (s2 : TrState),
      trVar fuel v g s = some (val, s2) → GenPres s s2 := by
  intro fuel
  induction fuel with
  | zero => intro v g s val s2 h; exact absurd h (by simp [trVar])
  | succ f ih =>
    intro v g s val s2 h
    obtain ⟨gm, hg, hca⟩ := trVar_succ_cases h
    rcases hca with ⟨_, rfl⟩ | ⟨_, hca⟩
    · exact genPres_refl _
    rcases hca with ⟨w, _, _, rfl⟩ | ⟨_, _, _, rfl⟩ | ⟨_, _, p, hrec, _, rfl⟩
    · exact genPres_finish g v w _
    · exact genPres_trans (genPres_freshVar _) (genPres_finish _ _ _ _)
    · exact genPres_trans (ih v gm.dominator s p.1 p.2 (by rw [hrec]))
        (genPres_finish _ _ _ _)

theorem nextVar_finish (g : GenId) (v : HVarId) (val : VarId) (s1 : TrState) :
    (trVarFinish g v val s1).2.next_var = s1.next_var := by
  simp [trVarFinish, nextVar_recordLoc, nextVar_cacheIns]

/-- Resolution never decreases the variable counter. -/
theorem trVar_nextVar_mono :
    ∀ (fuel : Nat) (v : HVarId) (g : GenId) (s : TrState) (val : VarId) (s2 : TrState),
      trVar fuel v g s = some (val, s2) → s.next_var ≤ s2.next_var := by
  intro fuel
  induction fuel with
  | zero => intro v g s val s2 h; exact absurd h (by simp [trVar])
  | succ f ih =>
    intro v g s val s2 h
    obtain ⟨gm, hg, hca⟩ := trVar_succ_cases h
    rcases hca with ⟨_, rfl⟩ | ⟨_, hca⟩
    · exact Nat.le_refl _
    rcases hca with ⟨w, _, _, rfl⟩ | ⟨_, _, _, rfl⟩ | ⟨_, _, p, hrec, _, rfl⟩
    · rw [nextVar_finish]
    · rw [nextVar_finish]
      exact Nat.le_succ _
    · rw [nextVar_finish]
      exact ih v gm.dominator s p.1 p.2 (by rw [hrec])

theorem cacheLookup_finish {s1 : TrState} {g : GenId} {gm1 : GenMap}
    (hg1 : alookup s1.gen_vars g = some gm1) (v : HVarId) (val : VarId)
    (g' : GenId) :
    cacheLookup (trVarFinish g v val s1).2 g' v =
      if g' = g then some val else cacheLookup s1 g' v := by
  rw [trVarFinish]
  rw [cacheLookup_recordLoc, cacheLookup_cacheIns s1 g v val gm1 hg1]
  by_cases hgg : g' = g <;> simp [hgg]

/-- After a successful resolution the result is present in the resolved
generation's cache. -/
theorem trVar_cacheSelf :
    ∀ (fuel : Nat) (v : HVarId) (g : GenId) (s : TrState) (val : VarId) (s2 : TrState),
      trVar fuel v g s = some (val, s2) → cacheLookup s2 g v = some val := by
  intro fuel
  induction fuel with
  | zero => intro v g s val s2 h; exact absurd h (by simp [trVar])
  | succ f ih =>
    intro v g s val s2 h
    obtain ⟨gm, hg, hca⟩ := trVar_succ_cases h
    rcases hca with ⟨hc, rfl⟩ | ⟨_, hca⟩
    · simp [cacheLookup, hg, hc]
    rcases hca with ⟨w, _, rfl, rfl⟩ | ⟨_, _, rfl, rfl⟩ | ⟨_, _, p, hrec, rfl, rfl⟩
    · rw [cacheLookup_finish hg]
      simp
    · rw [cacheLookup_finish
        (show alookup (TrState.freshVar s).2.gen_vars g = some gm from hg)]
      simp
    · obtain ⟨gm1, hg1, _, _⟩ :=
        trVar_genPres f v gm.dominator s p.1 p.2 (by rw [hrec]) g gm hg
      rw [cacheLookup_finish hg1]
      simp

/-- Every cache entry for the resolved variable present after a
resolution was either already present or holds the resolution's result. -/
theorem trVar_cacheOldOrNew :
    ∀ (fuel : Nat) (v : HVarId) (g : GenId) (s : TrState) (val : VarId) (s2 : TrState),
      trVar fuel v g s = some (val, s2) →
      ∀ (g' : GenId) (w : VarId), cacheLookup s2 g' v = some w →
        cacheLookup s g' v = some w ∨ w = val := by
  intro fuel
  induction fuel with
  | zero => intro v g s val s2 h; exact absurd h (by simp [trVar])
  | succ f ih =>
    intro v g s val s2 h
    obtain ⟨gm, hg, hca⟩ := trVar_succ_cases h
    rcases hca with ⟨_, rfl⟩ | ⟨_, hca⟩
    · exact fun g' w hw => Or.inl hw
    rcases hca with ⟨w2, _, rfl, rfl⟩ | ⟨_, _, rfl, rfl⟩ | ⟨_, _, p, hrec, rfl, rfl⟩
    · intro g' w hw
      rw [cacheLookup_finish hg] at hw
      by_cases hgg : g' = g
      · rw [if_pos hgg] at hw
        exact Or.inr (Option.some.inj hw).symm
      · rw [if_neg hgg] at hw
        exact Or.inl hw
    · intro g' w hw
      rw [cacheLookup_finish
        (show alookup (TrState.freshVar s).2.gen_vars g = some gm from hg)] at hw
      by_cases hgg : g' = g
      · rw [if_pos hgg] at hw
        exact Or.inr (Option.some.inj hw).symm
      · rw [if_neg hgg] at hw
        exact Or.inl hw
    · intro g' w hw
      obtain ⟨gm1, hg1, _, _⟩ :=
        trVar_genPres f v gm.dominator s p.1 p.2 (by rw [hrec]) g gm hg
      rw [cacheLookup_finish hg1] at hw
      by_cases hgg : g' = g
      · rw [if_pos hgg] at hw
        exact Or.inr (Option.some.inj hw).symm
      · rw [if_neg hgg] at hw
        exact ih v gm.dominator s p.1 p.2 (by rw [hrec]) g' w hw

/-!
Claim C7: confluence of generation resolution. -/

/-- Descending a rebinding-free chain: a successful resolution from g is
precisely a resolution at the ancestor followed by caching the single
result at every chain generation, so every new cache entry for v equals
the result. -/
theorem trVar_below_decompose :
    ∀ {g : GenId} {n : Nat} {s : TrState} {v : HVarId} {a : GenId}
      {fuel : Nat} {val : VarId} {s2 : TrState},
      Below s v a g n → trVar fuel v g s = some (val, s2) →
      n < fuel ∧ ∃ sa, trVar (fuel - n) v a s = some (val, sa) ∧
        (∀ g', cacheLookup s2 g' v = cacheLookup sa g' v ∨
          cacheLookup s2 g' v = some val) := by
  intro g n s v a fuel val s2 hb
  induction hb generalizing fuel val s2 with
  | base =>
    intro h
    cases fuel with
    | zero => exact absurd h (by simp [trVar])
    | succ f =>
      exact ⟨Nat.succ_pos f, s2, h, fun g' => Or.inl rfl⟩
  | @step g0 gm0 n0 hne hroot hgm hc hv hbd ih =>
    intro h
    cases fuel with
    | zero => exact absurd h (by simp [trVar])
    | succ f =>
      rw [trVar, hgm] at h
      simp only [hc, hv] at h
      rw [if_neg hroot] at h
      cases hrec : trVar f v gm0.dominator s with
      | none => rw [hrec] at h; exact Option.noConfusion h
      | some p =>
        rw [hrec] at h
        simp only [Option.map_some', Option.some.injEq] at h
        have hval : val = p.1 := (congrArg Prod.fst h).symm
        have hs2 : s2 = (trVarFinish g0 v p.1 p.2).2 := (congrArg Prod.snd h).symm
        subst hval
        have hrec2 : trVar f v gm0.dominator s = some (p.1, p.2) := by
          rw [hrec]
        obtain ⟨hlt, sa, hia, hprop⟩ := ih hrec2
        refine ⟨Nat.succ_lt_succ hlt, sa, ?_, ?_⟩
        · rw [Nat.succ_sub_succ]
          exact hia
        · intro g'
          obtain ⟨gm1, hg1, _, _⟩ :=
            trVar_genPres f v gm0.dominator s p.1 p.2 hrec2 g0 gm0 hgm
          rw [hs2, cacheLookup_finish hg1]
          by_cases hgg : g' = g0
          · rw [if_pos hgg]
            exact Or.inr rfl
          · rw [if_neg hgg]
            exact hprop g'

/-- Re-running resolution along a chain that was rebinding-free in the
original state, in any later state that preserved the generation
structure, whose new cache entries for v all carry r1, and whose ancestor
cache holds r1: the result is r1. -/
theorem trVar_below_run2 :
    ∀ {g : GenId} {n : Nat} {s : TrState} {v : HVarId} {a : GenId} {s1 : TrState}
      {r1 : VarId},
      Below s v a g n → GenPres s s1 →
      (∀ g' w, cacheLookup s1 g' v = some w → cacheLookup s g' v = some w ∨ w = r1) →
      cacheLookup s1 a v = some r1 →
      ∀ fuel, n < fuel → ∃ s2, trVar fuel v g s1 = some (r1, s2) := by
  intro g n s v a s1 r1 hb hpres hcv ha
  induction hb with
  | base =>
    intro fuel hf
    cases fuel with
    | zero => exact absurd hf (by simp)
    | succ f =>
      rw [cacheLookup] at ha
      cases hga : alookup s1.gen_vars a with
      | none =>
        simp only [hga] at ha
        exact Option.noConfusion ha
      | some gma =>
        simp only [hga] at ha
        refine ⟨s1, ?_⟩
        rw [trVar]
        simp only [hga, ha]
  | @step g0 gm0 n0 hne hroot hgm hc hv hbd ih =>
    intro fuel hf
    cases fuel with
    | zero => exact absurd hf (by simp)
    | succ f =>
      obtain ⟨gm1, hg1, hdom, hval⟩ := hpres g0 gm0 hgm
      cases hch : alookup gm1.cache v with
      | some w =>
        have hw : cacheLookup s1 g0 v = some w := by
          rw [cacheLookup]
          simp only [hg1, hch]
        rcases hcv g0 w hw with hold | hnew
        · rw [cacheLookup] at hold
          simp only [hgm, hc] at hold
          exact Option.noConfusion hold
        · subst hnew
          refine ⟨s1, ?_⟩
          rw [trVar]
          simp only [hg1, hch]
      | none =>
        obtain ⟨s2, hrec⟩ := ih f (Nat.lt_of_succ_lt_succ hf)
        refine ⟨(trVarFinish g0 v r1 s2).2, ?_⟩
        rw [trVar]
        simp only [hg1, hch]
        have hv1 : alookup gm1.value v = none := by rw [hval]; exact hv
        simp only [hv1]
        rw [if_neg hroot, hdom, hrec]
        rfl

/-- C7: for a source variable and two generations each reaching a common
ancestor along chains with no explicit rebinding of the variable (and no
prior cache entries for it below the ancestor), resolving at one
generation and then at the other, in either order within one translator
state, yields the same CFG-IR identifier. -/
theorem tr_var_confluent {s : TrState} {v : HVarId} {a g1 g2 : GenId}
    {n1 n2 f1 f2 : Nat} {r1 r2 : VarId} {s1 s2 : TrState}
    (hb1 : Below s v a g1 n1) (hb2 : Below s v a g2 n2)
    (h1 : trVar f1 v g1 s = some (r1, s1))
    (hf2 : n2 < f2)
    (h2 : trVar f2 v g2 s1 = some (r2, s2)) : r1 = r2 := by
  obtain ⟨hn1, sa, hia, hprop⟩ := trVar_below_decompose hb1 h1
  have hpres : GenPres s s1 := trVar_genPres f1 v g1 s r1 s1 h1
  have hQ : ∀ g' w, cacheLookup sa g' v = some w → cacheLookup s g' v = some w ∨ w = r1 :=
    trVar_cacheOldOrNew (f1 - n1) v a s r1 sa hia
  have ha : cacheLookup s1 a v = some r1 := by
    rcases hprop a with h | h
    · rw [h]
      exact trVar_cacheSelf (f1 - n1) v a s r1 sa hia
    · exact h
  have hcv : ∀ g' w, cacheLookup s1 g' v = some w →
      cacheLookup s g' v = some w ∨ w = r1 := by
    intro g' w hw
    rcases hprop g' with h | h
    · rw [h] at hw
      exact hQ g' w hw
    · rw [h] at hw
      exact Or.inr (Option.some.inj hw).symm
  obtain ⟨s2', hrun⟩ := trVar_below_run2 hb2 hpres hcv ha f2 hf2
  rw [h2] at hrun
  exact ((Prod.mk.injEq _ _ _ _).mp (Option.some.inj hrun)).1.symm

/-- Witness for C7: in the fixture with two sibling generations below the
root, variable 3 resolves to the same identifier at generation 1 and then
at generation 2 within one state. -/
theorem tr_var_confluent_witness :
    ∃ r1 s1 r2 s2, trVar 3 3 1 wS = some (r1, s1) ∧
      trVar 3 3 2 s1 = some (r2, s2) ∧ r1 = r2 := by
  have hb1 : Below wS 3 0 1 1 :=
    Below.step (by decide) (by decide) rfl rfl rfl Below.base
  have hb2 : Below wS 3 0 2 1 :=
    Below.step (by decide) (by decide) rfl rfl rfl Below.base
  have h1 : trVar 3 3 1 wS = some (0, (trVar 3 3 1 wS).get (by decide)).2 := by
    decide
  have h2 : trVar 3 3 2 ((trVar 3 3 1 wS).get (by decide)).2 =
      some (0, (trVar 3 3 2 ((trVar 3 3 1 wS).get (by decide)).2).get (by decide)).2 := by
    decide
  exact ⟨0, _, 0, _, h1, h2, tr_var_confluent hb1 hb2 h1 (by decide) h2⟩

/-!
Claim C3: join-argument minimality. -/

/-- C3 (amended): join_args passes, for each variable of the mutable set
in order, an extra block argument exactly when the identifier resolved at
the current generation differs from the identifier resolved at the join's
target generation AND the current-generation identifier is found in the
join target's context, whose entry supplies the relevance flag; in every
other case (unchanged identifier, or identifier absent from the target
context) the variable contributes no argument. -/
theorem join_args_characterization (ctx : CtxId) (gen : GenId) (v : HVarId)
    (rest : List HVarId) (acc : List (VarId × Bool × Operand)) (s : BState)
    {fr tov : VarId} {s1 s2 : BState}
    (h1 : s.trHVar v = (.ok fr, s1))
    (h2 : s1.trGenHVar v gen = (.ok tov, s2)) :
    joinArgsAux ctx gen [] acc s = (.ok acc, s) ∧
    joinArgsAux ctx gen (v :: rest) acc s =
      (if fr = tov then joinArgsAux ctx gen rest acc s2
       else
         match revFindCtx (s2.cfg.ctxEntries ctx) fr with
         | none => joinArgsAux ctx gen rest acc s2
         | some r => joinArgsAux ctx gen rest (acc ++ [(tov, r, Operand.move fr)]) s2) := by
  constructor
  · rfl
  · simp only [joinArgsAux, h1, h2]

/-- C3 counterexample against the claim as stated: a state where the
identifiers resolved at the current and target generations differ
(100 and 5) and yet the jump carries no argument for the variable,
because the current-generation identifier is not found in the join
target's context. -/
theorem join_args_counterexample :
    (cex3.trHVar 7).1 = BRes.ok 100 ∧
      ((cex3.trHVar 7).2.trGenHVar 7 1).1 = BRes.ok 5 ∧
      (joinArgsAux 0 1 [7] [] cex3).1 = BRes.ok [] := by
  refine ⟨by decide, by decide, ?_⟩
  decide

/-- Witness for the C3 characterization at the counterexample state. -/
theorem join_args_characterization_witness :
    joinArgsAux 0 1 [7] [] cex3 = (BRes.ok [], ((cex3.trHVar 7).2.trGenHVar 7 1).2) := by
  have h1 : cex3.trHVar 7 = (BRes.ok 100, (cex3.trHVar 7).2) := rfl
  have h2 : (cex3.trHVar 7).2.trGenHVar 7 1 =
      (BRes.ok 5, ((cex3.trHVar 7).2.trGenHVar 7 1).2) := rfl
  have h := (join_args_characterization 0 1 7 [] [] cex3 h1 h2).2
  rw [h]
  rfl

/-!
Claim C5: trivial-condition elision in expr_if. -/

/-- C5 (amended): lowering an if whose condition has a statically known
truth value lowers the condition to a temporary, emits the
hypothesis-witness binding when a hypothesis pair is present, and then
lowers exactly the chosen arm with the original destination; it never
constructs either arm context or a join block and never lowers the
untaken arm. -/
theorem expr_if_trivial_elision (fuel : Nat) (hyp : Option (HVarId × HVarId))
    (cond etru efal : HExpr) (gen : GenId) (muts : List HVarId) (b : Bool)
    (dest : Dest) (s : BState) :
    exprIf (fuel+1) hyp cond etru efal gen muts (some b) dest s =
      (match asTemp fuel cond s with
       | (.ok vcond, s1) =>
         (match trivialWitness fuel hyp b vcond s1 with
          | (.ok _, s2) => expr fuel (if b then etru else efal) dest s2
          | (.div, s2) => (.fault, s2)
          | (.fault, s2) => (.fault, s2))
       | (.div, s1) => (.div, s1)
       | (.fault, s1) => (.fault, s1)) := by
  rw [exprIf]
  rcases hA : asTemp fuel cond s with ⟨r1, s1⟩
  cases r1 with
  | ok vcond =>
    rcases hB : trivialWitness fuel hyp b vcond s1 with ⟨r2, s2⟩
    simp only [hB]
    cases r2
    · rfl
    · rfl
    · rfl
  | div => rfl
  | fault => rfl

/-- C5 counterexample against the claim as stated: with a trivially-true
condition, no hypothesis pair and a unit true arm, the lowering emits the
condition-temporary binding, so the produced graph differs from lowering
the true arm alone even though no hypothesis-witness binding exists. -/
theorem expr_if_trivial_counterexample :
    (exprIf 9 none (HExpr.boolE true) HExpr.unit HExpr.unit 1 [] (some true)
        none sW).2.cfg ≠
      (expr 9 HExpr.unit none sW).2.cfg := by
  decide

/-!
Claim C2: divergence of both arms of a non-trivial conditional. -/

/-- C2: when the lowering of the condition succeeds and the lowerings of
both arms of a non-trivial conditional return the Diverged sentinel,
expr_if returns Diverged and its final state is exactly the state left by
the false-arm lowering: no join (after) block is allocated, no context is
extended and nothing is pushed to the block tree for this conditional. -/
theorem expr_if_both_diverged (fuel : Nat) (hyp : Option (HVarId × HVarId))
    (cond etru efal : HExpr) (gen : GenId) (muts : List HVarId) (dest : Dest)
    (s0 : BState) {vcond : VarId} {s1 : BState} {vh1 vh2 : VarId} {s2 : BState}
    {fr : IfFrame} {s3 : BState} {transV : Option VarId} {dest2 : Dest}
    {s4 s5 s6 : BState}
    (hc : asTemp fuel cond s0 = (.ok vcond, s1))
    (hh : exprIfHyp fuel hyp s1 = (.ok (vh1, vh2), s2))
    (hs : exprIfSplit vcond vh1 vh2 gen s2 = (fr, s3))
    (hd : exprIfDest fuel dest gen s3 = (.ok (transV, dest2), s4))
    (ht : expr fuel etru dest2 (s4.setCur (fr.truBl, fr.truCtx, fr.base.2.2)) =
      (.div, s5))
    (hf : expr fuel efal dest2 (s5.setCur (fr.falBl, fr.falCtx, fr.base.2.2)) =
      (.div, s6)) :
    exprIf (fuel+1) hyp cond etru efal gen muts none dest s0 = (.div, s6) := by
  rw [exprIf]
  simp only [hc, hh, hs, hd, ht, hf]

/-- Witness for C2: a concrete conditional whose arms are a return and a
trap; the lowering returns Diverged with the post-arms state. -/
theorem expr_if_both_diverged_witness :
    exprIf 7 none (HExpr.boolE true) HExpr.ret HExpr.failE 1 [] none none sW =
      (BRes.div, c2s6) := by
  have hc : asTemp 6 (HExpr.boolE true) sW = (BRes.ok 0, c2s1) := by
    have h1 : (asTemp 6 (HExpr.boolE true) sW).1 = BRes.ok 0 := by decide
    rw [← h1]
    exact Prod.mk.eta.symm
  have hh : exprIfHyp 6 none c2s1 = (BRes.ok (1, 2), c2s2) := by
    have h1 : (exprIfHyp 6 none c2s1).1 = BRes.ok (1, 2) := by decide
    rw [← h1]
    exact Prod.mk.eta.symm
  have hs : exprIfSplit 0 1 2 1 c2s2 = (c2fr, c2s3) := rfl
  have hd : exprIfDest 6 none 1 c2s3 = (BRes.ok (none, none), c2s4) := by
    have h1 : (exprIfDest 6 none 1 c2s3).1 = BRes.ok (none, none) := by decide
    rw [← h1]
    exact Prod.mk.eta.symm
  have ht : expr 6 HExpr.ret none
      (c2s4.setCur (c2fr.truBl, c2fr.truCtx, c2fr.base.2.2)) = (BRes.div, c2s5) := by
    have h1 : (expr 6 HExpr.ret none
        (c2s4.setCur (c2fr.truBl, c2fr.truCtx, c2fr.base.2.2))).1 = BRes.div := by decide
    rw [← h1]
    exact Prod.mk.eta.symm
  have hf : expr 6 HExpr.failE none
      (c2s5.setCur (c2fr.falBl, c2fr.falCtx, c2fr.base.2.2)) = (BRes.div, c2s6) := by
    have h1 : (expr 6 HExpr.failE none
        (c2s5.setCur (c2fr.falBl, c2fr.falCtx, c2fr.base.2.2))).1 = BRes.div := by decide
    rw [← h1]
    exact Prod.mk.eta.symm
  exact expr_if_both_diverged 6 none (HExpr.boolE true) HExpr.ret HExpr.failE 1 []
    none sW hc hh hs hd ht hf

/-!
Monotonicity of the lowering state: the label stack, the open-group stack
and the variable counter only grow across every lowering function (used
for claims C10 and C4). -/

theorem grows_of_eq {s s2 : BState} (h1 : s2.labels = s.labels)
    (h2 : s2.tree.groups = s.tree.groups) (h3 : s2.ts.next_var = s.ts.next_var) :
    Grows s s2 := by
  refine ⟨?_, ?_, ?_⟩ <;> simp [h1, h2, h3]

theorem modifyCurBlock_fields (s : BState) (f : BasicBlock → BasicBlock) :
    (s.modifyCurBlock f).labels = s.labels ∧ (s.modifyCurBlock f).tree = s.tree ∧
      (s.modifyCurBlock f).ts = s.ts := by
  rw [BState.modifyCurBlock]
  split <;> exact ⟨rfl, rfl, rfl⟩

theorem grows_modifyCurBlock (s : BState) (f : BasicBlock → BasicBlock) :
    Grows s (s.modifyCurBlock f) := by
  obtain ⟨h1, h2, h3⟩ := modifyCurBlock_fields s f
  exact grows_of_eq h1 (by rw [h2]) (by rw [h3])

theorem grows_extendCtx (s : BState) (v : VarId) (r : Bool) (ty : ExprTy) :
    Grows s (s.extendCtx v r ty) :=
  grows_of_eq rfl rfl rfl

theorem grows_pushStmt (s : BState) (st : Statement) : Grows s (s.pushStmt st) := by
  cases st with
  | letS v e r ty rv =>
    exact grows_trans (grows_extendCtx s v r (e, ty)) (grows_modifyCurBlock _ _)
  | labelGroup bls ctx => exact grows_modifyCurBlock _ _
  | popLabelGroup => exact grows_modifyCurBlock _ _
  | dominatedBlock bl ctx => exact grows_modifyCurBlock _ _

theorem grows_terminate (s : BState) (t : Terminator) : Grows s (s.terminate t) :=
  grows_modifyCurBlock s _

theorem grows_setCur (s : BState) (p : BlockId × CtxId × GenId) :
    Grows s (s.setCur p) :=
  grows_of_eq rfl rfl rfl

theorem grows_newBlock (s : BState) (parent : Nat) : Grows s (s.newBlock parent).2 :=
  grows_of_eq rfl rfl rfl

theorem grows_newBlockWith (s : BState) (ctx : CtxId) (parent : Nat) :
    Grows s (s.newBlockWith ctx parent).2 :=
  grows_of_eq rfl rfl rfl

theorem grows_dominatedBlock (s : BState) (ctx : CtxId) :
    Grows s (s.dominatedBlock ctx).2 :=
  grows_trans (grows_newBlock s _) (grows_pushStmt _ _)

theorem grows_tryAddGen (s : BState) (dom gen : GenId) : Grows s (s.tryAddGen dom gen) := by
  rw [BState.tryAddGen]
  split
  · exact grows_refl s
  · exact grows_of_eq rfl rfl rfl

theorem grows_freshVar (s : BState) : Grows s (s.freshVar).2 :=
  ⟨Nat.le_refl _, Nat.le_refl _, Nat.le_succ _⟩

theorem grows_trHVar (s : BState) (v : HVarId) : Grows s (s.trHVar v).2 := by
  rw [BState.trHVar]
  split
  · next val ts h =>
    exact ⟨Nat.le_refl _, Nat.le_refl _, trVar_nextVar_mono _ _ _ _ _ _ h⟩
  · exact grows_refl s

theorem grows_trGenHVar (s : BState) (v : HVarId) (g : GenId) :
    Grows s (s.trGenHVar v g).2 := by
  rw [BState.trGenHVar]
  split
  · next val ts h =>
    exact ⟨Nat.le_refl _, Nat.le_refl _, trVar_nextVar_mono _ _ _ _ _ _ h⟩
  · exact grows_refl s

theorem grows_trPreVar (s : BState) (p : PreVar) : Grows s (s.trPreVar p).2 := by
  cases p with
  | ok v => exact grows_refl s
  | pre v => exact grows_trHVar s v
  | fresh => exact grows_freshVar s

theorem grows_trGenPreVar (s : BState) (p : PreVar) (g : GenId) :
    Grows s (s.trGenPreVar p g).2 := by
  cases p with
  | ok v => exact grows_refl s
  | pre v => exact grows_trGenHVar s v g
  | fresh => exact grows_freshVar s

theorem grows_tupPatName (g : Bool) (name : HVarId) (v2 : VarId) (s : BState) :
    Grows s (tupPatName g name v2 s) := by
  rw [tupPatName]
  split
  · exact grows_trans (grows_pushStmt s _) (grows_of_eq rfl rfl rfl)
  · exact grows_of_eq rfl rfl rfl

theorem grows_joinArgsAux (ctx : CtxId) (gen : GenId) :
    ∀ (muts : List HVarId) (acc : List (VarId × Bool × Operand)) (s : BState),
      Grows s (joinArgsAux ctx gen muts acc s).2 := by
  intro muts
  induction muts with
  | nil => intro acc s; exact grows_refl s
  | cons v rest ih =>
    intro acc s
    rw [joinArgsAux]
    split
    next fr s1 h1 =>
      have g1 : Grows s s1 := by
        rw [show s1 = (s.trHVar v).2 from (congrArg Prod.snd h1).symm]
        exact grows_trHVar s v
      split
      next tov s2 h2 =>
        have g2 : Grows s1 s2 := by
          rw [show s2 = (s1.trGenHVar v gen).2 from (congrArg Prod.snd h2).symm]
          exact grows_trGenHVar s1 v gen
        split
        · exact grows_trans g1 (grows_trans g2 (ih acc s2))
        · split
          · exact grows_trans g1 (grows_trans g2 (ih acc s2))
          · exact grows_trans g1 (grows_trans g2 (ih _ s2))
      next r s2 hne h2 =>
        have g2 : Grows s1 s2 := by
          rw [show s2 = (s1.trGenHVar v gen).2 from (congrArg Prod.snd h2).symm]
          exact grows_trGenHVar s1 v gen
        exact grows_trans g1 g2
    next r s1 hne h1 =>
      have g1 : Grows s s1 := by
        rw [show s1 = (s.trHVar v).2 from (congrArg Prod.snd h1).symm]
        exact grows_trHVar s v
      exact g1

theorem grows_joinF (jb : JoinBlock) (args : List (VarId × Bool × Operand))
    (s : BState) : Grows s (joinF jb args s).2 := by
  rw [joinF]
  split
  · exact grows_refl s
  next b hb =>
    split
    next args2 s1 hj =>
      have g1 : Grows s s1 := by
        rw [show s1 = (joinArgsAux b.ctx jb.gen jb.muts args s).2 from
          (congrArg Prod.snd hj).symm]
        exact grows_joinArgsAux b.ctx jb.gen jb.muts args s
      exact grows_trans g1 (grows_terminate s1 _)
    next r s1 hne hj =>
      have g1 : Grows s s1 := by
        rw [show s1 = (joinArgsAux b.ctx jb.gen jb.muts args s).2 from
          (congrArg Prod.snd hj).symm]
        exact grows_joinArgsAux b.ctx jb.gen jb.muts args s
      exact g1

theorem grows_pushPopN : ∀ (n : Nat) (s : BState), Grows s (pushPopN n s) := by
  intro n
  induction n with
  | zero => intro s; exact grows_refl s
  | succ k ih =>
    intro s
    exact grows_trans (grows_pushStmt s _) (ih _)

theorem pushStmt_fields (s : BState) (st : Statement) :
    (s.pushStmt st).labels = s.labels ∧ (s.pushStmt st).tree = s.tree ∧
      (s.pushStmt st).ts = s.ts := by
  cases st with
  | letS v e r ty rv => exact modifyCurBlock_fields (s.extendCtx v r (e, ty)) _
  | labelGroup bls ctx => exact modifyCurBlock_fields s _
  | popLabelGroup => exact modifyCurBlock_fields s _
  | dominatedBlock bl ctx => exact modifyCurBlock_fields s _

theorem dominatedBlock_fields (s : BState) (ctx : CtxId) :
    (s.dominatedBlock ctx).2.labels = s.labels ∧
      (s.dominatedBlock ctx).2.tree = s.tree ∧
      (s.dominatedBlock ctx).2.ts = s.ts :=
  pushStmt_fields (s.newBlock (s.cfg.ctxLen ctx)).2 _

theorem rvalueBlockSetup_fields (stmts : List HStmt) (retEty : Option Unit)
    (gen : GenId) (muts : List HVarId) (s : BState) :
    (rvalueBlockSetup stmts retEty gen muts s).2.labels = s.labels ∧
      (rvalueBlockSetup stmts retEty gen muts s).2.tree = s.tree ∧
      s.ts.next_var ≤ (rvalueBlockSetup stmts retEty gen muts s).2.ts.next_var := by
  simp only [rvalueBlockSetup.eq_def]
  split
  · split
    · obtain ⟨h1, h2, h3⟩ :=
        dominatedBlock_fields ((s.freshVar).2.extendCtx (s.freshVar).1 true (none, MTy.unit))
          s.cur_ctx
      refine ⟨h1, h2, Nat.le_trans (Nat.le_succ s.ts.next_var) (Nat.le_of_eq ?_)⟩
      exact (congrArg TrState.next_var h3).symm
    · obtain ⟨h1, h2, h3⟩ := dominatedBlock_fields s s.cur_ctx
      exact ⟨h1, h2, Nat.le_of_eq (congrArg TrState.next_var h3).symm⟩
  · exact ⟨rfl, rfl, Nat.le_refl _⟩

theorem grows_rvalueBlockJoinAux (jb : JoinBlock) (destOpt : BlockDest)
    (afterCtx : CtxId) (gen : GenId) (s1 : BState) (j : BRes Unit × BState)
    (hj : Grows s1 j.2) :
    Grows s1 (match j with
      | (BRes.ok _, s2) => ((BRes.ok (match destOpt with
          | none => Operand.constUnit
          | some v => Operand.move v) : BRes RValue),
        s2.setCur (jb.tgt, afterCtx, gen))
      | (r2, s2) => ((BRes.fault : BRes RValue), s2)).2 := by
  rcases j with ⟨r2, s2⟩
  cases r2 with
  | ok u => exact grows_trans hj (grows_setCur s2 _)
  | div => exact hj
  | fault => exact hj

theorem grows_rvalueBlockJoin (r : BRes (Sum Operand RValue))
    (jbOpt : Option (JoinBlock × BlockDest)) (afterCtx : CtxId) (gen : GenId)
    (s : BState) : Grows s (rvalueBlockJoin r jbOpt afterCtx gen s).2 := by
  cases jbOpt with
  | none =>
    cases r with
    | ok rv =>
      cases rv with
      | inl o => exact grows_refl s
      | inr rv2 => exact grows_refl s
    | div => exact grows_refl s
    | fault => exact grows_refl s
  | some q =>
    obtain ⟨jb, destOpt⟩ := q
    have gpush : Grows s { s with tree := s.tree.push jb.tgt } :=
      grows_of_eq rfl rfl rfl
    cases r with
    | div =>
      exact grows_trans gpush
        (grows_rvalueBlockJoinAux jb destOpt afterCtx gen _
          (BRes.ok (), { s with tree := s.tree.push jb.tgt }) (grows_refl _))
    | fault =>
      exact grows_trans gpush
        (grows_rvalueBlockJoinAux jb destOpt afterCtx gen _
          (BRes.fault, { s with tree := s.tree.push jb.tgt }) (grows_refl _))
    | ok rv =>
      cases rv with
      | inr rv2 =>
        exact grows_trans gpush
          (grows_rvalueBlockJoinAux jb destOpt afterCtx gen _
            (BRes.fault, { s with tree := s.tree.push jb.tgt }) (grows_refl _))
      | inl o =>
        refine grows_trans gpush
          (grows_rvalueBlockJoinAux jb destOpt afterCtx gen _ _ ?_)
        exact grows_joinF jb _ { s with tree := s.tree.push jb.tgt }

theorem tryAddGen_fields (s : BState) (dom gen : GenId) :
    (s.tryAddGen dom gen).labels = s.labels ∧ (s.tryAddGen dom gen).tree = s.tree ∧
      (s.tryAddGen dom gen).ts.next_var = s.ts.next_var := by
  rw [BState.tryAddGen]
  split
  · exact ⟨rfl, rfl, rfl⟩
  · exact ⟨rfl, rfl, rfl⟩

theorem exprIfSplit_fields (vcond vh1 vh2 : VarId) (gen : GenId) (s : BState) :
    (exprIfSplit vcond vh1 vh2 gen s).2.labels = s.labels ∧
      (exprIfSplit vcond vh1 vh2 gen s).2.tree = s.tree ∧
      (exprIfSplit vcond vh1 vh2 gen s).2.ts.next_var = s.ts.next_var := by
  obtain ⟨a1, a2, a3⟩ := tryAddGen_fields s s.ts.cur_gen gen
  refine ⟨?_, ?_, ?_⟩
  · exact Eq.trans (modifyCurBlock_fields _ _).1 a1
  · exact Eq.trans (modifyCurBlock_fields _ _).2.1 a2
  · exact Eq.trans (congrArg TrState.next_var (modifyCurBlock_fields _ _).2.2) a3

theorem grows_exprIfSplit (vcond vh1 vh2 : VarId) (gen : GenId) (s : BState) :
    Grows s (exprIfSplit vcond vh1 vh2 gen s).2 := by
  obtain ⟨h1, h2, h3⟩ := exprIfSplit_fields vcond vh1 vh2 gen s
  exact grows_of_eq h1 (congrArg BlockTreeBuilder.groups h2) h3

theorem popN_groups_length : ∀ (k : Nat) (t : BlockTreeBuilder),
    (BlockTreeBuilder.popN k t).groups.length = t.groups.length - k := by
  intro k
  induction k with
  | zero => intro t; rfl
  | succ m ih =>
    intro t
    rw [BlockTreeBuilder.popN]
    cases hg : t.groups with
    | nil => simp [hg]
    | cons hd tl =>
      obtain ⟨many, group⟩ := hd
      rw [ih]
      simp [hg]

theorem truncate_groups_length (t : BlockTreeBuilder) (n : Nat)
    (h : n ≤ t.groups.length) : (t.truncate n).groups.length = n := by
  rw [BlockTreeBuilder.truncate, popN_groups_length]
  omega

theorem grows_cast {α : Type} {s s1 : BState} {p : BRes α × BState} {r : BRes α}
    (h : p = (r, s1)) (hp : Grows s p.2) : Grows s s1 := by
  have h2 := congrArg Prod.snd h
  rw [h2] at hp
  exact hp

theorem grows_pushTree (s : BState) (b : BlockId) :
    Grows s { s with tree := s.tree.push b } :=
  grows_of_eq rfl rfl rfl

theorem grows_pushGroupL (s : BState) (g : List BlockId) :
    Grows s { s with tree := s.tree.pushGroup g } :=
  ⟨Nat.le_refl _, Nat.le_succ _, Nat.le_refl _⟩

theorem grows_appendLabel (s : BState) (x : HVarId × LabelGroupData) :
    Grows s { s with labels := s.labels ++ [x] } :=
  ⟨by simp, Nat.le_refl _, Nat.le_refl _⟩

theorem grows_all : ∀ fuel, GrowsAll fuel := by
  intro fuel
  induction fuel with
  | zero =>
    refine ⟨?_, ?_, ?_, ?_, ?_, ?_, ?_, ?_, ?_, ?_, ?_, ?_, ?_, ?_, ?_, ?_⟩ <;>
      intros <;> exact grows_refl _
  | succ n ih =>
    obtain ⟨ihE, ihES, ihTH, ihAT, ihO, ihR, ihSF, ihSS, ihLS, ihIH, ihTW, ihID,
      ihIF, ihRBI, ihRB, ihBF⟩ := ih
    have cES : ∀ e d s, Grows s (exprSome (n+1) e d s).2 := by
      intro e d s
      simp only [exprSome]
      split
      next rv s1 h1 =>
        have g1 : Grows s s1 := grows_cast h1 (ihR e s)
        split
        next v s2 h2 =>
          exact grows_trans g1 (grows_trans (grows_cast h2 (grows_trPreVar s1 d))
            (grows_pushStmt s2 _))
        next r s2 hne h2 =>
          exact grows_trans g1 (grows_cast h2 (grows_trPreVar s1 d))
      next s1 h1 => exact grows_cast h1 (ihR e s)
      next s1 h1 => exact grows_cast h1 (ihR e s)
    have cTH : ∀ vs s, Grows s (trHVars (n+1) vs s).2 := by
      intro vs s
      cases vs with
      | nil => exact grows_refl s
      | cons v rest =>
        simp only [trHVars]
        split
        next v2 s1 h1 =>
          have g1 : Grows s s1 := grows_cast h1 (grows_trHVar s v)
          split
          next vs2 s2 h2 => exact grows_trans g1 (grows_cast h2 (ihTH rest s1))
          next r s2 hne h2 =>
            have g2 : Grows s1 s2 := grows_cast h2 (ihTH rest s1)
            cases r with
            | ok v3 => exact grows_trans g1 g2
            | div => exact grows_trans g1 g2
            | fault => exact grows_trans g1 g2
        next r s1 hne h1 => exact grows_cast h1 (grows_trHVar s v)
    have cAT : ∀ e s, Grows s (asTemp (n+1) e s).2 := by
      intro e s
      simp only [asTemp]
      split
      next u s1 h1 =>
        exact grows_cast h1 (grows_trans (grows_freshVar s) (ihE e _ (s.freshVar).2))
      next s1 h1 =>
        exact grows_cast h1 (grows_trans (grows_freshVar s) (ihE e _ (s.freshVar).2))
      next s1 h1 =>
        exact grows_cast h1 (grows_trans (grows_freshVar s) (ihE e _ (s.freshVar).2))
    have cO : ∀ e s, Grows s (operand (n+1) e s).2 := by
      intro e s
      cases e with
      | varE v g =>
        simp only [operand]
        split
        next v2 s1 h1 => exact grows_cast h1 (grows_trGenHVar s v g)
        next r s1 hne h1 => exact grows_cast h1 (grows_trGenHVar s v g)
      | unit => exact grows_refl s
      | boolE b => exact grows_refl s
      | hif hyp cond etru efal gen muts triv =>
        simp only [operand]
        split
        next v s1 h1 => exact grows_cast h1 (ihAT _ s)
        next s1 h1 => exact grows_cast h1 (ihAT _ s)
        next s1 h1 => exact grows_cast h1 (ihAT _ s)
      | blockE bl =>
        simp only [operand]
        split
        next v s1 h1 => exact grows_cast h1 (ihAT _ s)
        next s1 h1 => exact grows_cast h1 (ihAT _ s)
        next s1 h1 => exact grows_cast h1 (ihAT _ s)
      | brk lab e2 =>
        simp only [operand]
        split
        next v s1 h1 => exact grows_cast h1 (ihAT _ s)
        next s1 h1 => exact grows_cast h1 (ihAT _ s)
        next s1 h1 => exact grows_cast h1 (ihAT _ s)
      | ret =>
        simp only [operand]
        split
        next v s1 h1 => exact grows_cast h1 (ihAT _ s)
        next s1 h1 => exact grows_cast h1 (ihAT _ s)
        next s1 h1 => exact grows_cast h1 (ihAT _ s)
      | failE =>
        simp only [operand]
        split
        next v s1 h1 => exact grows_cast h1 (ihAT _ s)
        next s1 h1 => exact grows_cast h1 (ihAT _ s)
        next s1 h1 => exact grows_cast h1 (ihAT _ s)
    have cE : ∀ e dest s, Grows s (expr (n+1) e dest s).2 := by
      intro e dest s
      cases e with
      | hif hyp cond etru efal gen muts triv =>
        exact ihIF hyp cond etru efal gen muts triv dest s
      | unit =>
        cases dest with
        | none => exact grows_refl s
        | some d => exact ihES .unit d s
      | boolE b =>
        cases dest with
        | none => exact grows_refl s
        | some d => exact ihES (.boolE b) d s
      | varE v g =>
        cases dest with
        | none => exact grows_refl s
        | some d => exact ihES (.varE v g) d s
      | blockE bl =>
        cases dest with
        | some d => exact ihES (.blockE bl) d s
        | none =>
          simp only [expr]
          split
          next rv s1 h1 => exact grows_cast h1 (ihRB bl (some ()) s)
          next s1 h1 => exact grows_cast h1 (ihRB bl (some ()) s)
          next s1 h1 => exact grows_cast h1 (ihRB bl (some ()) s)
      | brk lab e2 =>
        cases dest with
        | some d => exact ihES (.brk lab e2) d s
        | none =>
          simp only [expr]
          split
          · exact grows_refl s
          next lgd hl =>
            split
            · exact grows_refl s
            next jb bdest hq =>
              split
              · split
                next u s1 h1 =>
                  have g1 : Grows s s1 := grows_cast h1 (ihE e2 none s)
                  split
                  next u2 s2 h2 =>
                    exact grows_trans g1 (grows_cast h2 (grows_joinF jb [] s1))
                  next r s2 hne h2 =>
                    exact grows_trans g1 (grows_cast h2 (grows_joinF jb [] s1))
                next s1 h1 => exact grows_cast h1 (ihE e2 none s)
                next s1 h1 => exact grows_cast h1 (ihE e2 none s)
              next v =>
                split
                next o s1 h1 =>
                  have g1 : Grows s s1 := grows_cast h1 (ihO e2 s)
                  split
                  next u2 s2 h2 =>
                    exact grows_trans g1 (grows_cast h2 (grows_joinF jb _ s1))
                  next r s2 hne h2 =>
                    exact grows_trans g1 (grows_cast h2 (grows_joinF jb _ s1))
                next s1 h1 => exact grows_cast h1 (ihO e2 s)
                next s1 h1 => exact grows_cast h1 (ihO e2 s)
      | ret =>
        cases dest with
        | some d => exact ihES .ret d s
        | none =>
          simp only [expr]
          split
          · exact grows_refl s
          next rts hr =>
            split
            next outs s1 h1 =>
              exact grows_trans (grows_cast h1 (ihTH rts.outs s)) (grows_terminate s1 _)
            next r s1 hne h1 => exact grows_cast h1 (ihTH rts.outs s)
      | failE =>
        cases dest with
        | some d => exact ihES .failE d s
        | none => exact grows_terminate s _
    have cR : ∀ e s, Grows s (rvalue (n+1) e s).2 := by
      intro e s
      cases e with
      | blockE bl => exact ihRB bl (some ()) s
      | brk lab e2 =>
        simp only [rvalue]
        split
        next u s1 h1 => exact grows_cast h1 (ihE _ none s)
        next s1 h1 => exact grows_cast h1 (ihE _ none s)
        next s1 h1 => exact grows_cast h1 (ihE _ none s)
      | ret =>
        simp only [rvalue]
        split
        next u s1 h1 => exact grows_cast h1 (ihE _ none s)
        next s1 h1 => exact grows_cast h1 (ihE _ none s)
        next s1 h1 => exact grows_cast h1 (ihE _ none s)
      | failE =>
        simp only [rvalue]
        split
        next u s1 h1 => exact grows_cast h1 (ihE _ none s)
        next s1 h1 => exact grows_cast h1 (ihE _ none s)
        next s1 h1 => exact grows_cast h1 (ihE _ none s)
      | unit =>
        simp only [rvalue]
        split
        next o s1 h1 => exact grows_cast h1 (ihO _ s)
        next s1 h1 => exact grows_cast h1 (ihO _ s)
        next s1 h1 => exact grows_cast h1 (ihO _ s)
      | boolE b =>
        simp only [rvalue]
        split
        next o s1 h1 => exact grows_cast h1 (ihO _ s)
        next s1 h1 => exact grows_cast h1 (ihO _ s)
        next s1 h1 => exact grows_cast h1 (ihO _ s)
      | varE v g =>
        simp only [rvalue]
        split
        next o s1 h1 => exact grows_cast h1 (ihO _ s)
        next s1 h1 => exact grows_cast h1 (ihO _ s)
        next s1 h1 => exact grows_cast h1 (ihO _ s)
      | hif hyp cond etru efal gen muts triv =>
        simp only [rvalue]
        split
        next o s1 h1 => exact grows_cast h1 (ihO _ s)
        next s1 h1 => exact grows_cast h1 (ihO _ s)
        next s1 h1 => exact grows_cast h1 (ihO _ s)
    have cSF : ∀ st brk s, Grows s (stmtF (n+1) st brk s).2 := by
      intro st brk s
      cases st with
      | slet v rhs => exact ihLS false v rhs s
      | sexpr e => exact ihE e none s
      | slabel v hasJump =>
        simp only [stmtF]
        split
        · exact grows_refl s
        next jb dest =>
          split
          · refine grows_trans ?_ (grows_setCur _ _)
            exact grows_trans (grows_pushStmt s _) (grows_trans (grows_pushGroupL _ _)
              (grows_appendLabel _ _))
          · exact grows_appendLabel s _
    have cSS : ∀ sts brk s, Grows s (stmtsF (n+1) sts brk s).2 := by
      intro sts brk s
      cases sts with
      | nil => exact grows_refl s
      | cons st rest =>
        simp only [stmtsF]
        split
        next u s1 h1 =>
          exact grows_trans (grows_cast h1 (ihSF st brk s)) (ihSS rest brk s1)
        next s1 h1 => exact grows_cast h1 (ihSF st brk s)
        next s1 h1 => exact grows_cast h1 (ihSF st brk s)
    have cLS : ∀ g v rhs s, Grows s (letStmt (n+1) g v rhs s).2 := by
      intro g v rhs s
      simp only [letStmt]
      split
      next u s1 h1 =>
        have g1 : Grows s s1 := grows_cast h1 (ihE rhs _ s)
        split
        next v2 s2 h2 =>
          exact grows_trans g1 (grows_trans (grows_cast h2 (grows_trPreVar s1 _))
            (grows_tupPatName g v v2 s2))
        next r s2 hne h2 =>
          exact grows_trans g1 (grows_cast h2 (grows_trPreVar s1 _))
      next s1 h1 => exact grows_cast h1 (ihE rhs _ s)
      next s1 h1 => exact grows_cast h1 (ihE rhs _ s)
    have cIH : ∀ hyp s, Grows s (exprIfHyp (n+1) hyp s).2 := by
      intro hyp s
      cases hyp with
      | none => exact grows_trans (grows_freshVar s) (grows_freshVar _)
      | some hp =>
        simp only [exprIfHyp]
        split
        next v1 s1 h1 =>
          have g1 : Grows s s1 := grows_cast h1 (grows_trHVar s hp.1)
          split
          next v2 s2 h2 => exact grows_trans g1 (grows_cast h2 (grows_trHVar s1 hp.2))
          next r s2 hne h2 => exact grows_trans g1 (grows_cast h2 (grows_trHVar s1 hp.2))
        next r s1 hne h1 => exact grows_cast h1 (grows_trHVar s hp.1)
    have cTW : ∀ hyp b vc s, Grows s (trivialWitness (n+1) hyp b vc s).2 := by
      intro hyp b vc s
      cases hyp with
      | none => exact grows_refl s
      | some hp =>
        simp only [trivialWitness]
        split
        next vh s1 h1 =>
          exact grows_trans (grows_cast h1 (grows_trHVar s _)) (grows_pushStmt s1 _)
        next r s1 hne h1 => exact grows_cast h1 (grows_trHVar s _)
    have cID : ∀ dest gen s, Grows s (exprIfDest (n+1) dest gen s).2 := by
      intro dest gen s
      cases dest with
      | none => exact grows_refl s
      | some v =>
        simp only [exprIfDest]
        split
        next x s1 h1 => exact grows_cast h1 (grows_trGenPreVar s v gen)
        next r s1 hne h1 => exact grows_cast h1 (grows_trGenPreVar s v gen)
    have cIF : ∀ hyp cond etru efal gen muts triv dest s,
        Grows s (exprIf (n+1) hyp cond etru efal gen muts triv dest s).2 := by
      intro hyp cond etru efal gen muts triv dest s
      simp only [exprIf]
      split
      next s1 h1 => exact grows_cast h1 (ihAT cond s)
      next s1 h1 => exact grows_cast h1 (ihAT cond s)
      next vcond s1 h1 =>
        have g1 : Grows s s1 := grows_cast h1 (ihAT cond s)
        split
        next b =>
          split
          next u s2 h2 =>
            exact grows_trans g1 (grows_trans (grows_cast h2 (ihTW hyp b vcond s1))
              (ihE _ dest s2))
          next r s2 hne h2 =>
            exact grows_trans g1 (grows_cast h2 (ihTW hyp b vcond s1))
        next =>
          split
          next vh1 vh2 s2 h2 =>
            have g2 : Grows s1 s2 := grows_cast h2 (ihIH hyp s1)
            have g3 : Grows s2 (exprIfSplit vcond vh1 vh2 gen s2).2 :=
              grows_exprIfSplit vcond vh1 vh2 gen s2
            split
            next transV dest2 s4 h4 =>
              have g4 : Grows (exprIfSplit vcond vh1 vh2 gen s2).2 s4 :=
                grows_cast h4 (ihID dest gen _)
              have gS4 : Grows s s4 :=
                grows_trans g1 (grows_trans g2 (grows_trans g3 g4))
              split
              next s6 h6 =>
                exact grows_trans gS4 (grows_trans (grows_setCur s4 _)
                  (grows_cast h6 (ihE etru dest2 _)))
              next truRes s6 hne6 h6 =>
                have g6 : Grows s4 s6 :=
                  grows_trans (grows_setCur s4 _) (grows_cast h6 (ihE etru dest2 _))
                split
                next s8 h8 =>
                  exact grows_trans gS4 (grows_trans g6 (grows_trans (grows_setCur s6 _)
                    (grows_cast h8 (ihE efal dest2 _))))
                next falRes s8 hne8 h8 =>
                  have g8 : Grows s6 s8 :=
                    grows_trans (grows_setCur s6 _) (grows_cast h8 (ihE efal dest2 _))
                  have gS8 : Grows s s8 := grows_trans gS4 (grows_trans g6 g8)
                  cases truRes with
                  | div =>
                    cases falRes with
                    | div => exact gS8
                    | ok u2 => exact grows_trans gS8 (grows_setCur s8 _)
                    | fault => exact gS8
                  | fault =>
                    cases falRes with
                    | div => exact gS8
                    | ok u2 => exact gS8
                    | fault => exact gS8
                  | ok u =>
                    cases falRes with
                    | div => exact grows_trans gS8 (grows_setCur s8 _)
                    | fault => exact gS8
                    | ok u2 =>
                      cases transV with
                      | none =>
                        dsimp only
                        split
                        next u3 s12 h12 =>
                          have g12 : Grows _ s12 := grows_cast h12 (grows_joinF _ _ _)
                          split
                          next u4 s13 h13 =>
                            have g13 : Grows _ s13 := grows_cast h13 (grows_joinF _ _ _)
                            exact grows_trans gS8 (grows_trans (grows_setCur s8 _)
                              (grows_trans (grows_dominatedBlock _ _)
                                (grows_trans (grows_setCur _ _)
                                  (grows_trans g12 (grows_trans (grows_setCur s12 _)
                                    (grows_trans g13 (grows_trans (grows_pushTree s13 _)
                                      (grows_setCur _ _))))))))
                          next r4 s13 hne13 h13 =>
                            have g13 : Grows _ s13 := grows_cast h13 (grows_joinF _ _ _)
                            exact grows_trans gS8 (grows_trans (grows_setCur s8 _)
                              (grows_trans (grows_dominatedBlock _ _)
                                (grows_trans (grows_setCur _ _)
                                  (grows_trans g12 (grows_trans (grows_setCur s12 _) g13)))))
                        next r3 s12 hne12 h12 =>
                          have g12 : Grows _ s12 := grows_cast h12 (grows_joinF _ _ _)
                          exact grows_trans gS8 (grows_trans (grows_setCur s8 _)
                            (grows_trans (grows_dominatedBlock _ _)
                              (grows_trans (grows_setCur _ _) g12)))
                      | some v =>
                        dsimp only
                        split
                        next u3 s12 h12 =>
                          have g12 : Grows _ s12 := grows_cast h12 (grows_joinF _ _ _)
                          split
                          next u4 s13 h13 =>
                            have g13 : Grows _ s13 := grows_cast h13 (grows_joinF _ _ _)
                            exact grows_trans gS8 (grows_trans (grows_setCur s8 _)
                              (grows_trans (grows_extendCtx _ _ _ _)
                                (grows_trans (grows_dominatedBlock _ _)
                                  (grows_trans (grows_setCur _ _)
                                    (grows_trans g12 (grows_trans (grows_setCur s12 _)
                                      (grows_trans g13 (grows_trans (grows_pushTree s13 _)
                                        (grows_setCur _ _)))))))))
                          next r4 s13 hne13 h13 =>
                            have g13 : Grows _ s13 := grows_cast h13 (grows_joinF _ _ _)
                            exact grows_trans gS8 (grows_trans (grows_setCur s8 _)
                              (grows_trans (grows_extendCtx _ _ _ _)
                                (grows_trans (grows_dominatedBlock _ _)
                                  (grows_trans (grows_setCur _ _)
                                    (grows_trans g12 (grows_trans (grows_setCur s12 _) g13))))))
                        next r3 s12 hne12 h12 =>
                          have g12 : Grows _ s12 := grows_cast h12 (grows_joinF _ _ _)
                          exact grows_trans gS8 (grows_trans (grows_setCur s8 _)
                            (grows_trans (grows_extendCtx _ _ _ _)
                              (grows_trans (grows_dominatedBlock _ _)
                                (grows_trans (grows_setCur _ _) g12))))
            next r2 s4 hne4 h4 =>
              exact grows_trans g1 (grows_trans g2 (grows_trans g3
                (grows_cast h4 (ihID dest gen _))))
          next r s2 hne h2 =>
            exact grows_trans g1 (grows_cast h2 (ihIH hyp s1))
    have cRBI : ∀ stmts tail jbOpt rl s,
        Grows s (rvalueBlockInner (n+1) stmts tail jbOpt rl s).2 := by
      intro stmts tail jbOpt rl s
      simp only [rvalueBlockInner]
      split
      next u s1 h1 =>
        have g1 : Grows s s1 := grows_cast h1 (ihSS stmts jbOpt s)
        by_cases hjb : jbOpt.isSome = true
        · rw [if_pos hjb]
          cases tail with
          | none => exact grows_trans g1 (grows_pushPopN _ s1)
          | some e =>
            dsimp only
            split
            next rv s2 heq =>
              split at heq <;> cases heq
              rename_i o hop
              exact grows_trans g1 (grows_trans (grows_cast hop (ihO e s1))
                (grows_pushPopN _ s2))
            next s2 heq =>
              split at heq <;> cases heq
              rename_i hop
              exact grows_trans g1 (grows_cast hop (ihO e s1))
            next s2 heq =>
              split at heq <;> cases heq
              rename_i hop
              exact grows_trans g1 (grows_cast hop (ihO e s1))
        · rw [if_neg hjb]
          cases tail with
          | none => exact grows_trans g1 (grows_pushPopN _ s1)
          | some e =>
            dsimp only
            split
            next rv s2 heq =>
              split at heq <;> cases heq
              rename_i o hop
              exact grows_trans g1 (grows_trans (grows_cast hop (ihR e s1))
                (grows_pushPopN _ s2))
            next s2 heq =>
              split at heq <;> cases heq
              rename_i hop
              exact grows_trans g1 (grows_cast hop (ihR e s1))
            next s2 heq =>
              split at heq <;> cases heq
              rename_i hop
              exact grows_trans g1 (grows_cast hop (ihR e s1))
      next s1 h1 => exact grows_cast h1 (ihSS stmts jbOpt s)
      next s1 h1 => exact grows_cast h1 (ihSS stmts jbOpt s)
    have cRB : ∀ bl retEty s, Grows s (rvalueBlock (n+1) bl retEty s).2 := by
      intro bl retEty s
      obtain ⟨stmts, tail, gen, muts⟩ := bl
      have gB : Grows (s.tryAddGen s.ts.cur_gen gen)
          (rvalueBlockSetup stmts retEty gen muts (s.tryAddGen s.ts.cur_gen gen)).2 := by
        obtain ⟨f1, f2, f3⟩ :=
          rvalueBlockSetup_fields stmts retEty gen muts (s.tryAddGen s.ts.cur_gen gen)
        exact ⟨Nat.le_of_eq (congrArg List.length f1).symm,
          Nat.le_of_eq (congrArg (fun t => t.groups.length) f2).symm, f3⟩
      simp only [rvalueBlock]
      split
      next s1 h1 =>
        exact grows_trans (grows_tryAddGen s s.ts.cur_gen gen) (grows_trans gB
          (grows_cast h1 (ihRBI stmts tail _ s.labels.length _)))
      next r s1 hne h1 =>
        have gAll : Grows s s1 :=
          grows_trans (grows_tryAddGen s s.ts.cur_gen gen) (grows_trans gB
            (grows_cast h1 (ihRBI stmts tail _ s.labels.length _)))
        refine grows_trans ?_ (grows_rvalueBlockJoin r _ _ gen _)
        refine ⟨?_, ?_, gAll.2.2⟩
        · have h9 : (s1.labels.take s.labels.length).length =
              min s.labels.length s1.labels.length := by simp
          have h10 := gAll.1
          refine Nat.le_trans ?_ (Nat.le_of_eq h9.symm)
          omega
        · exact Nat.le_of_eq
            (truncate_groups_length s1.tree s.tree.groups.length gAll.2.1).symm
    have cBF : ∀ bl ety dest s, Grows s (blockF (n+1) bl ety dest s).2 := by
      intro bl ety dest s
      simp only [blockF]
      split
      next rv s1 h1 =>
        have g1 : Grows s s1 := grows_cast h1 (ihRB bl ety s)
        split
        next u d =>
          split
          next v s2 h2 =>
            exact grows_trans g1 (grows_trans (grows_cast h2 (grows_trPreVar s1 d))
              (grows_pushStmt s2 _))
          next r s2 hne h2 =>
            exact grows_trans g1 (grows_cast h2 (grows_trPreVar s1 d))
        next => exact g1
      next s1 h1 => exact grows_cast h1 (ihRB bl ety s)
      next s1 h1 => exact grows_cast h1 (ihRB bl ety s)
    exact ⟨cE, cES, cTH, cAT, cO, cR, cSF, cSS, cLS, cIH, cTW, cID, cIF, cRBI, cRB, cBF⟩

/-!
Claim C1: the resolution algorithm of the Generation Table. -/

/-- C1: tr_var returns the cached identifier when the (name, generation)
pair is cached, leaving the state unchanged; otherwise the result is the
generation's explicit rebinding when one exists, else a freshly allocated
identifier when the generation is the root, else the dominator
generation's resolution; and in every non-cached case the result is
stored in this generation's cache (and recorded in the location history)
before returning, so that the resolved generation's cache always holds
the result afterwards. -/
theorem tr_var_resolution (fuel : Nat) (v : HVarId) (gen : GenId) (s : TrState)
    (gm : GenMap) (hg : alookup s.gen_vars gen = some gm) :
    (∀ val, alookup gm.cache v = some val → trVar (fuel+1) v gen s = some (val, s)) ∧
    (alookup gm.cache v = none →
      (∀ val, alookup gm.value v = some val →
        trVar (fuel+1) v gen s = some (val, ((s.cacheIns gen v val).recordLoc v val))) ∧
      (alookup gm.value v = none → gen = GenId.ROOT →
        trVar (fuel+1) v gen s =
          some (s.next_var,
            ((TrState.freshVar s).2.cacheIns gen v s.next_var).recordLoc v s.next_var)) ∧
      (alookup gm.value v = none → gen ≠ GenId.ROOT →
        trVar (fuel+1) v gen s =
          (trVar fuel v gm.dominator s).map
            (fun p => (p.1, ((p.2.cacheIns gen v p.1).recordLoc v p.1))))) ∧
    (∀ val s2, trVar (fuel+1) v gen s = some (val, s2) →
      cacheLookup s2 gen v = some val) := by
  refine ⟨?_, ?_, ?_⟩
  · intro val hc
    simp only [trVar, hg, hc]
  · intro hc
    refine ⟨?_, ?_, ?_⟩
    · intro val hv
      simp only [trVar, hg, hc, hv]
      rfl
    · intro hv hroot
      simp only [trVar, hg, hc, hv]
      rw [if_pos hroot]
      rfl
    · intro hv hroot
      simp only [trVar, hg, hc, hv]
      rw [if_neg hroot]
      rfl
  · intro val s2 h
    exact trVar_cacheSelf (fuel+1) v gen s val s2 h

/-- Witness for C1 at a concrete state: a cached entry is returned
directly and a root-generation miss allocates the counter value and
caches it. -/
theorem tr_var_resolution_witness :
    trVar 1 5 0 wC = some (9, wC) ∧ trVar 1 6 0 wC = some (2, wC2) ∧
      cacheLookup wC2 0 6 = some 2 := by
  have h1 := tr_var_resolution 0 5 0 wC { dominator := 0, value := [], cache := [(5, 9)] } rfl
  have h2 := tr_var_resolution 0 6 0 wC { dominator := 0, value := [], cache := [(5, 9)] } rfl
  refine ⟨h1.1 9 rfl, ?_, ?_⟩
  · have := (h2.2.1 (by decide)).2.1 (by decide) rfl
    rw [this]
    rfl
  · exact h2.2.2 2 wC2 ((h2.2.1 (by decide)).2.1 (by decide) rfl)

/-!
Claim C10: rvalue_block restores the label and group stacks. -/

theorem grows_rvalueBlockInner (fuel : Nat) : ∀ stmts tail jbOpt rl s,
    Grows s (rvalueBlockInner fuel stmts tail jbOpt rl s).2 :=
  (grows_all fuel).2.2.2.2.2.2.2.2.2.2.2.2.2.1

theorem grows_letStmt (fuel : Nat) : ∀ g v rhs s,
    Grows s (letStmt fuel g v rhs s).2 :=
  (grows_all fuel).2.2.2.2.2.2.2.2.1

theorem trHVar_fields (s : BState) (v : HVarId) :
    (s.trHVar v).2.labels = s.labels ∧ (s.trHVar v).2.tree = s.tree := by
  rw [BState.trHVar]
  split
  · exact ⟨rfl, rfl⟩
  · exact ⟨rfl, rfl⟩

theorem trGenHVar_fields (s : BState) (v : HVarId) (g : GenId) :
    (s.trGenHVar v g).2.labels = s.labels ∧ (s.trGenHVar v g).2.tree = s.tree := by
  rw [BState.trGenHVar]
  split
  · exact ⟨rfl, rfl⟩
  · exact ⟨rfl, rfl⟩

theorem joinArgsAux_fields (ctx : CtxId) (gen : GenId) : ∀ muts acc (s : BState),
    (joinArgsAux ctx gen muts acc s).2.labels = s.labels ∧
      (joinArgsAux ctx gen muts acc s).2.tree = s.tree := by
  intro muts
  induction muts with
  | nil => intro acc s; exact ⟨rfl, rfl⟩
  | cons v rest ih =>
    intro acc s
    rw [joinArgsAux]
    split
    next fr s1 h1 =>
      have e1 : s1.labels = s.labels ∧ s1.tree = s.tree := by
        have h2 := trHVar_fields s v
        rw [h1] at h2
        exact h2
      split
      next tov s2 h2 =>
        have e2 : s2.labels = s1.labels ∧ s2.tree = s1.tree := by
          have h3 := trGenHVar_fields s1 v gen
          rw [h2] at h3
          exact h3
        split
        · obtain ⟨a1, a2⟩ := ih acc s2
          exact ⟨a1.trans (e2.1.trans e1.1), a2.trans (e2.2.trans e1.2)⟩
        · split
          · obtain ⟨a1, a2⟩ := ih acc s2
            exact ⟨a1.trans (e2.1.trans e1.1), a2.trans (e2.2.trans e1.2)⟩
          · obtain ⟨a1, a2⟩ := ih _ s2
            exact ⟨a1.trans (e2.1.trans e1.1), a2.trans (e2.2.trans e1.2)⟩
      next r s2 hne h2 =>
        have e2 : s2.labels = s1.labels ∧ s2.tree = s1.tree := by
          have h3 := trGenHVar_fields s1 v gen
          rw [h2] at h3
          exact h3
        exact ⟨e2.1.trans e1.1, e2.2.trans e1.2⟩
    next r s1 hne h1 =>
      have e1 : s1.labels = s.labels ∧ s1.tree = s.tree := by
        have h2 := trHVar_fields s v
        rw [h1] at h2
        exact h2
      exact e1

theorem joinF_fields (jb : JoinBlock) (args : List (VarId × Bool × Operand))
    (s : BState) :
    (joinF jb args s).2.labels = s.labels ∧ (joinF jb args s).2.tree = s.tree := by
  rw [joinF]
  split
  · exact ⟨rfl, rfl⟩
  next b hb =>
    split
    next args2 s1 hj =>
      have e1 : s1.labels = s.labels ∧ s1.tree = s.tree := by
        have h2 := joinArgsAux_fields b.ctx jb.gen jb.muts args s
        rw [hj] at h2
        exact h2
      obtain ⟨m1, m2, _⟩ := modifyCurBlock_fields s1 _
      exact ⟨m1.trans e1.1, m2.trans e1.2⟩
    next r s1 hne hj =>
      have e1 : s1.labels = s.labels ∧ s1.tree = s.tree := by
        have h2 := joinArgsAux_fields b.ctx jb.gen jb.muts args s
        rw [hj] at h2
        exact h2
      exact e1

theorem rvalueBlockJoinAux_fields (jb : JoinBlock) (destOpt : BlockDest)
    (afterCtx : CtxId) (gen : GenId) (s1 : BState) (j : BRes Unit × BState)
    (hj : j.2.labels = s1.labels ∧ j.2.tree.groups = s1.tree.groups) :
    (match j with
      | (BRes.ok _, s2) => ((BRes.ok (match destOpt with
          | none => Operand.constUnit
          | some v => Operand.move v) : BRes RValue),
        s2.setCur (jb.tgt, afterCtx, gen))
      | (r2, s2) => ((BRes.fault : BRes RValue), s2)).2.labels = s1.labels ∧
    (match j with
      | (BRes.ok _, s2) => ((BRes.ok (match destOpt with
          | none => Operand.constUnit
          | some v => Operand.move v) : BRes RValue),
        s2.setCur (jb.tgt, afterCtx, gen))
      | (r2, s2) => ((BRes.fault : BRes RValue), s2)).2.tree.groups = s1.tree.groups := by
  rcases j with ⟨r2, s2⟩
  cases r2 with
  | ok u => exact hj
  | div => exact hj
  | fault => exact hj

theorem rvalueBlockJoin_fields (r : BRes (Sum Operand RValue))
    (jbOpt : Option (JoinBlock × BlockDest)) (afterCtx : CtxId) (gen : GenId)
    (s : BState) :
    (rvalueBlockJoin r jbOpt afterCtx gen s).2.labels = s.labels ∧
      (rvalueBlockJoin r jbOpt afterCtx gen s).2.tree.groups = s.tree.groups := by
  cases jbOpt with
  | none =>
    cases r with
    | ok rv =>
      cases rv with
      | inl o => exact ⟨rfl, rfl⟩
      | inr rv2 => exact ⟨rfl, rfl⟩
    | div => exact ⟨rfl, rfl⟩
    | fault => exact ⟨rfl, rfl⟩
  | some q =>
    obtain ⟨jb, destOpt⟩ := q
    cases r with
    | div => exact ⟨rfl, rfl⟩
    | fault => exact ⟨rfl, rfl⟩
    | ok rv =>
      cases rv with
      | inr rv2 => exact ⟨rfl, rfl⟩
      | inl o =>
        cases destOpt with
        | none =>
          have hjf := joinF_fields jb [] { s with tree := s.tree.push jb.tgt }
          have h2 : (joinF jb [] { s with tree := s.tree.push jb.tgt }).2.tree.groups =
              ({ s with tree := s.tree.push jb.tgt } : BState).tree.groups :=
            congrArg BlockTreeBuilder.groups hjf.2
          have h1 : (joinF jb [] { s with tree := s.tree.push jb.tgt }).2.labels =
              s.labels := hjf.1
          have h3 : (joinF jb [] { s with tree := s.tree.push jb.tgt }).2.tree.groups =
              s.tree.groups := h2
          exact rvalueBlockJoinAux_fields jb none afterCtx gen _ _ ⟨h1, h3⟩
        | some v =>
          have hjf := joinF_fields jb [(v, true, o)] { s with tree := s.tree.push jb.tgt }
          have h2 : (joinF jb [(v, true, o)]
                { s with tree := s.tree.push jb.tgt }).2.tree.groups =
              ({ s with tree := s.tree.push jb.tgt } : BState).tree.groups :=
            congrArg BlockTreeBuilder.groups hjf.2
          have h1 : (joinF jb [(v, true, o)]
                { s with tree := s.tree.push jb.tgt }).2.labels = s.labels := hjf.1
          have h3 : (joinF jb [(v, true, o)]
                { s with tree := s.tree.push jb.tgt }).2.tree.groups =
              s.tree.groups := h2
          exact rvalueBlockJoinAux_fields jb (some v) afterCtx gen _ _ ⟨h1, h3⟩

/-- C10: on every non-fault return (both the value path and the Diverged
path), rvalue_block leaves the label stack and the block-tree group stack
at exactly the heights they had on entry, so lowering any block leaves the
caller's label scopes and tree nesting unchanged. -/
theorem rvalue_block_frame (fuel : Nat) (bl : HBlock) (retEty : Option Unit)
    (s : BState) (h : (rvalueBlock fuel bl retEty s).1 ≠ BRes.fault) :
    (rvalueBlock fuel bl retEty s).2.labels.length = s.labels.length ∧
      (rvalueBlock fuel bl retEty s).2.tree.groups.length = s.tree.groups.length := by
  cases fuel with
  | zero => exact absurd rfl h
  | succ n =>
    obtain ⟨stmts, tail, gen, muts⟩ := bl
    have gB : Grows (s.tryAddGen s.ts.cur_gen gen)
        (rvalueBlockSetup stmts retEty gen muts (s.tryAddGen s.ts.cur_gen gen)).2 := by
      obtain ⟨f1, f2, f3⟩ :=
        rvalueBlockSetup_fields stmts retEty gen muts (s.tryAddGen s.ts.cur_gen gen)
      exact ⟨Nat.le_of_eq (congrArg List.length f1).symm,
        Nat.le_of_eq (congrArg (fun t => t.groups.length) f2).symm, f3⟩
    simp only [rvalueBlock] at h ⊢
    split
    next s1 h1 =>
      simp only [h1] at h
      exact absurd rfl h
    next r s1 hne h1 =>
      have gAll : Grows s s1 :=
        grows_trans (grows_tryAddGen s s.ts.cur_gen gen) (grows_trans gB
          (grows_cast h1 (grows_rvalueBlockInner n stmts tail _ s.labels.length _)))
      constructor
      · rw [(rvalueBlockJoin_fields r _ _ gen _).1]
        have h10 := gAll.1
        simp only [List.length_take]
        omega
      · rw [(rvalueBlockJoin_fields r _ _ gen _).2]
        exact truncate_groups_length s1.tree s.tree.groups.length gAll.2.1

theorem rvalue_block_frame_witness :
    (rvalueBlock 9 wBl (some ()) sW).1 ≠ BRes.fault ∧
    ((rvalueBlock 9 wBl (some ()) sW).2.labels.length = sW.labels.length ∧
     (rvalueBlock 9 wBl (some ()) sW).2.tree.groups.length = sW.tree.groups.length) :=
  ⟨by decide, rvalue_block_frame 9 wBl (some ()) sW (by decide)⟩

/-!
Claim C9: procedure bodies lower to Diverged. -/

theorem rvalueBlockSetup_noLabel (stmts : List HStmt) (retEty : Option Unit)
    (gen : GenId) (muts : List HVarId) (s : BState)
    (h : stmts.any HStmt.isLabel = false) :
    rvalueBlockSetup stmts retEty gen muts s = ((none, s.cur_ctx), s) := by
  simp [rvalueBlockSetup, h]

theorem div_all : ∀ fuel, DivAll fuel := by
  intro fuel
  induction fuel with
  | zero =>
    refine ⟨?_, ?_, ?_, ?_, ?_, ?_, ?_, ?_, ?_⟩ <;> intros <;> exact Or.inr rfl
  | succ n ih =>
    obtain ⟨dE, dES, dAT, dO, dR, dIF, dRBI, dRB, dBF⟩ := ih
    have cES : ∀ e d s, eDiv e = true →
        (exprSome (n+1) e d s).1 = BRes.div ∨ (exprSome (n+1) e d s).1 = BRes.fault := by
      intro e d s hdiv
      simp only [exprSome]
      split
      next rv s1 h1 =>
        have hcon := dR e s hdiv
        rw [h1] at hcon
        rcases hcon with h2 | h2 <;> exact BRes.noConfusion h2
      next s1 h1 => exact Or.inl rfl
      next s1 h1 => exact Or.inr rfl
    have cAT : ∀ e s, eDiv e = true →
        (asTemp (n+1) e s).1 = BRes.div ∨ (asTemp (n+1) e s).1 = BRes.fault := by
      intro e s hdiv
      simp only [asTemp]
      split
      next u s1 h1 =>
        have hcon := dE e (some (PreVar.ok (s.freshVar).1)) (s.freshVar).2 hdiv
        rw [h1] at hcon
        rcases hcon with h2 | h2 <;> exact BRes.noConfusion h2
      next s1 h1 => exact Or.inl rfl
      next s1 h1 => exact Or.inr rfl
    have cO : ∀ e s, eDiv e = true →
        (operand (n+1) e s).1 = BRes.div ∨ (operand (n+1) e s).1 = BRes.fault := by
      intro e s hdiv
      cases e with
      | unit => simp [eDiv] at hdiv
      | boolE b => simp [eDiv] at hdiv
      | varE v g => simp [eDiv] at hdiv
      | hif hyp cond etru efal gen muts triv =>
        simp only [operand]
        split
        next v s1 h1 =>
          have hcon := dAT _ s hdiv
          rw [h1] at hcon
          rcases hcon with h2 | h2 <;> exact BRes.noConfusion h2
        next s1 h1 => exact Or.inl rfl
        next s1 h1 => exact Or.inr rfl
      | blockE bl =>
        simp only [operand]
        split
        next v s1 h1 =>
          have hcon := dAT _ s hdiv
          rw [h1] at hcon
          rcases hcon with h2 | h2 <;> exact BRes.noConfusion h2
        next s1 h1 => exact Or.inl rfl
        next s1 h1 => exact Or.inr rfl
      | brk lab e2 =>
        simp only [operand]
        split
        next v s1 h1 =>
          have hcon := dAT _ s hdiv
          rw [h1] at hcon
          rcases hcon with h2 | h2 <;> exact BRes.noConfusion h2
        next s1 h1 => exact Or.inl rfl
        next s1 h1 => exact Or.inr rfl
      | ret =>
        simp only [operand]
        split
        next v s1 h1 =>
          have hcon := dAT _ s hdiv
          rw [h1] at hcon
          rcases hcon with h2 | h2 <;> exact BRes.noConfusion h2
        next s1 h1 => exact Or.inl rfl
        next s1 h1 => exact Or.inr rfl
      | failE =>
        simp only [operand]
        split
        next v s1 h1 =>
          have hcon := dAT _ s hdiv
          rw [h1] at hcon
          rcases hcon with h2 | h2 <;> exact BRes.noConfusion h2
        next s1 h1 => exact Or.inl rfl
        next s1 h1 => exact Or.inr rfl
    have cR : ∀ e s, eDiv e = true →
        (rvalue (n+1) e s).1 = BRes.div ∨ (rvalue (n+1) e s).1 = BRes.fault := by
      intro e s hdiv
      cases e with
      | unit => simp [eDiv] at hdiv
      | boolE b => simp [eDiv] at hdiv
      | varE v g => simp [eDiv] at hdiv
      | blockE bl => exact dRB bl (some ()) s hdiv
      | brk lab e2 =>
        simp only [rvalue]
        split
        next u s1 h1 => exact Or.inr rfl
        next s1 h1 => exact Or.inl rfl
        next s1 h1 => exact Or.inr rfl
      | ret =>
        simp only [rvalue]
        split
        next u s1 h1 => exact Or.inr rfl
        next s1 h1 => exact Or.inl rfl
        next s1 h1 => exact Or.inr rfl
      | failE =>
        simp only [rvalue]
        split
        next u s1 h1 => exact Or.inr rfl
        next s1 h1 => exact Or.inl rfl
        next s1 h1 => exact Or.inr rfl
      | hif hyp cond etru efal gen muts triv =>
        simp only [rvalue]
        split
        next o s1 h1 =>
          have hcon := dO _ s hdiv
          rw [h1] at hcon
          rcases hcon with h2 | h2 <;> exact BRes.noConfusion h2
        next s1 h1 => exact Or.inl rfl
        next s1 h1 => exact Or.inr rfl
    have cE : ∀ e dest s, eDiv e = true →
        (expr (n+1) e dest s).1 = BRes.div ∨ (expr (n+1) e dest s).1 = BRes.fault := by
      intro e dest s hdiv
      cases e with
      | unit => simp [eDiv] at hdiv
      | boolE b => simp [eDiv] at hdiv
      | varE v g => simp [eDiv] at hdiv
      | hif hyp cond etru efal gen muts triv =>
        exact dIF hyp cond etru efal gen muts triv dest s hdiv
      | blockE bl =>
        cases dest with
        | some d => exact dES (.blockE bl) d s hdiv
        | none =>
          simp only [expr]
          split
          next rv s1 h1 =>
            have hcon := dRB bl (some ()) s hdiv
            rw [h1] at hcon
            rcases hcon with h2 | h2 <;> exact BRes.noConfusion h2
          next s1 h1 => exact Or.inl rfl
          next s1 h1 => exact Or.inr rfl
      | brk lab e2 =>
        cases dest with
        | some d => exact dES (.brk lab e2) d s hdiv
        | none =>
          simp only [expr]
          split
          · exact Or.inr rfl
          next lgd hl =>
            split
            · exact Or.inr rfl
            next jb bdest hq =>
              split
              · split
                next u s1 h1 =>
                  split
                  next u2 s2 h2 => exact Or.inl rfl
                  next r s2 hne h2 => exact Or.inr rfl
                next s1 h1 => exact Or.inl rfl
                next s1 h1 => exact Or.inr rfl
              next v =>
                split
                next o s1 h1 =>
                  split
                  next u2 s2 h2 => exact Or.inl rfl
                  next r s2 hne h2 => exact Or.inr rfl
                next s1 h1 => exact Or.inl rfl
                next s1 h1 => exact Or.inr rfl
      | ret =>
        cases dest with
        | some d => exact dES .ret d s hdiv
        | none =>
          simp only [expr]
          split
          · exact Or.inr rfl
          next rts hr =>
            split
            next outs s1 h1 => exact Or.inl rfl
            next r s1 hne h1 => exact Or.inr rfl
      | failE =>
        cases dest with
        | some d => exact dES .failE d s hdiv
        | none => exact Or.inl rfl
    have cIF : ∀ hyp cond etru efal gen muts triv dest s,
        eDiv (HExpr.hif hyp cond etru efal gen muts triv) = true →
        (exprIf (n+1) hyp cond etru efal gen muts triv dest s).1 = BRes.div ∨
        (exprIf (n+1) hyp cond etru efal gen muts triv dest s).1 = BRes.fault := by
      intro hyp cond etru efal gen muts triv dest s hdiv
      simp only [exprIf]
      split
      next s1 h1 => exact Or.inl rfl
      next s1 h1 => exact Or.inr rfl
      next vcond s1 h1 =>
        split
        next b =>
          split
          next u s2 h2 =>
            cases b with
            | true =>
              simp only [eDiv] at hdiv
              exact dE etru dest s2 hdiv
            | false =>
              simp only [eDiv] at hdiv
              exact dE efal dest s2 hdiv
          next r s2 hne h2 => exact Or.inr rfl
        next =>
          simp only [eDiv, Bool.and_eq_true] at hdiv
          split
          next vh1 vh2 s2 h2 =>
            split
            next transV dest2 s4 h4 =>
              split
              next s6 h6 => exact Or.inr rfl
              next truRes s6 hne6 h6 =>
                have ht : truRes = BRes.div ∨ truRes = BRes.fault := by
                  have hcon := dE etru dest2
                    (s4.setCur ((exprIfSplit vcond vh1 vh2 gen s2).1.truBl,
                      (exprIfSplit vcond vh1 vh2 gen s2).1.truCtx,
                      (exprIfSplit vcond vh1 vh2 gen s2).1.base.2.2)) hdiv.1
                  rw [h6] at hcon
                  exact hcon
                split
                next s8 h8 => exact Or.inr rfl
                next falRes s8 hne8 h8 =>
                  have hf : falRes = BRes.div ∨ falRes = BRes.fault := by
                    have hcon := dE efal dest2
                      (s6.setCur ((exprIfSplit vcond vh1 vh2 gen s2).1.falBl,
                        (exprIfSplit vcond vh1 vh2 gen s2).1.falCtx,
                        (exprIfSplit vcond vh1 vh2 gen s2).1.base.2.2)) hdiv.2
                    rw [h8] at hcon
                    exact hcon
                  rcases ht with rfl | rfl <;> rcases hf with rfl | rfl
                  · exact Or.inl rfl
                  · exact Or.inr rfl
                  · exact Or.inr rfl
                  · exact Or.inr rfl
            next r2 s4 hne4 h4 => exact Or.inr rfl
          next r s2 hne h2 => exact Or.inr rfl
    have cRBI : ∀ stmts e rl s, eDiv e = true →
        (rvalueBlockInner (n+1) stmts (some e) none rl s).1 = BRes.div ∨
        (rvalueBlockInner (n+1) stmts (some e) none rl s).1 = BRes.fault := by
      intro stmts e rl s hdiv
      simp only [rvalueBlockInner]
      split
      next u s1 h1 =>
        rw [if_neg (by simp : ¬ ((none : Option (JoinBlock × BlockDest)).isSome = true))]
        split
        next rv s2 heq =>
          split at heq <;> cases heq
          rename_i o hop
          have hcon := dR e s1 hdiv
          rw [hop] at hcon
          rcases hcon with h2 | h2 <;> exact BRes.noConfusion h2
        next s2 heq => exact Or.inl rfl
        next s2 heq => exact Or.inr rfl
      next s1 h1 => exact Or.inl rfl
      next s1 h1 => exact Or.inr rfl
    have cRB : ∀ bl retEty s, bDiv bl = true →
        (rvalueBlock (n+1) bl retEty s).1 = BRes.div ∨
        (rvalueBlock (n+1) bl retEty s).1 = BRes.fault := by
      intro bl retEty s hdiv
      obtain ⟨stmts, tail, gen, muts⟩ := bl
      cases tail with
      | none =>
        have h0 : ((stmts.all fun st => !st.isLabel) && false) = true := hdiv
        rw [Bool.and_false] at h0
        exact Bool.noConfusion h0
      | some e =>
        have h0 : ((stmts.all fun st => !st.isLabel) && eDiv e) = true := hdiv
        rw [Bool.and_eq_true] at h0
        have hnl : stmts.any HStmt.isLabel = false := by
          cases hcase : stmts.any HStmt.isLabel
          · rfl
          · exfalso
            rcases List.any_eq_true.mp hcase with ⟨st, hst, hl⟩
            have h3 := List.all_eq_true.mp h0.1 st hst
            rw [hl] at h3
            exact Bool.noConfusion h3
        simp only [rvalueBlock]
        rw [rvalueBlockSetup_noLabel stmts retEty gen muts _ hnl]
        dsimp only
        split
        next s1 h1 => exact Or.inr rfl
        next r s1 hne h1 =>
          have hr : r = BRes.div ∨ r = BRes.fault := by
            have hcon := dRBI stmts e s.labels.length
              (s.tryAddGen s.ts.cur_gen gen) h0.2
            rw [h1] at hcon
            exact hcon
          rcases hr with rfl | rfl
          · exact Or.inl rfl
          · exact Or.inr rfl
    have cBF : ∀ bl ety dest s, bDiv bl = true →
        (blockF (n+1) bl ety dest s).1 = BRes.div ∨
        (blockF (n+1) bl ety dest s).1 = BRes.fault := by
      intro bl ety dest s hdiv
      simp only [blockF]
      split
      next rv s1 h1 =>
        have hcon := dRB bl ety s hdiv
        rw [h1] at hcon
        rcases hcon with h2 | h2 <;> exact BRes.noConfusion h2
      next s1 h1 => exact Or.inl rfl
      next s1 h1 => exact Or.inr rfl
    exact ⟨cE, cES, cAT, cO, cR, cIF, cRBI, cRB, cBF⟩

/-- C9: when a procedure body syntactically ends in divergence (every
control path terminates in a return, trap or break, as every well-typed
procedure body of the fragment does), lowering it with block never
produces a value: it returns the Diverged sentinel (or a fault on fuel
exhaustion or a panic path), so the non-diverging (unreachable!) branch
of build_item's Proc case cannot be reached. -/
theorem proc_body_diverges (fuel : Nat) (body : HBlock) (s : BState)
    (h : bDiv body = true) :
    (blockF fuel body none none s).1 = BRes.div ∨
      (blockF fuel body none none s).1 = BRes.fault :=
  (div_all fuel).2.2.2.2.2.2.2.2 body none none s h

theorem proc_body_diverges_witness :
    bDiv bodyD = true ∧
    ((blockF 9 bodyD none none sW).1 = BRes.div ∨
     (blockF 9 bodyD none none sW).1 = BRes.fault) :=
  ⟨by decide, proc_body_diverges 9 bodyD sW (by decide)⟩

/-!
Claim C4: the variable counter across items.  The Proc branch of
build_item starts from a fresh builder whose counter is the default zero
and never reads the initializer's high-water mark, so a procedure reuses
the variable identifiers already allocated to globals: both the lowered
global below and the lowered procedure bind CFG variable 0. -/

set_option maxHeartbeats 2000000 in
theorem build_item_counter_counterexample :
    globalBinds0 (buildItemGlobal 20 InitializerS.default0 4 (HExpr.boolE true)) = true ∧
      procBinds0 (buildItemProc 20 1 bodyW) = true :=
  ⟨by decide, by decide⟩

/-- C4 (amended): only the global-initializer chain threads the variable
counter: the Global branch of build_item resumes the counter from the
initializer's stored high-water mark and stores it back, so the counter
is monotone along the initializer; the Proc branch instead starts from a
fresh builder whose translator counter is the default zero, so variable
identifiers are unique within one item but procedures and globals may
reuse the same identifiers. -/
theorem build_item_counter_amended (fuel : Nat) (init : InitializerS) (v : HVarId)
    (rhs : HExpr) (i1 : InitializerS)
    (h : buildItemGlobal fuel init v rhs = some i1) :
    init.cfg.max_var ≤ i1.cfg.max_var ∧ buildMirNew.ts.next_var = 0 := by
  refine ⟨?_, rfl⟩
  simp only [buildItemGlobal] at h
  cases hc : init.cur with
  | ok pos =>
    simp only [hc] at h
    split at h
    next heq => exact Option.noConfusion h
    next hne =>
      injection h with h2
      subst h2
      dsimp only
      split
      next a s2 heq =>
        exact (grows_cast heq (grows_letStmt fuel true v rhs _)).2.2
      next s2 heq =>
        exact (grows_cast heq (grows_letStmt fuel true v rhs _)).2.2
      next s2 heq =>
        exact (grows_cast heq (grows_letStmt fuel true v rhs _)).2.2
  | div =>
    simp only [hc] at h
    injection h with h2
    subst h2
    exact Nat.le_refl _
  | fault =>
    simp only [hc] at h
    exact Option.noConfusion h

theorem build_item_counter_amended_witness :
    buildItemGlobal 9 InitializerS.default0 4 (HExpr.boolE true) = some i1W ∧
    (InitializerS.default0.cfg.max_var ≤ i1W.cfg.max_var ∧
     buildMirNew.ts.next_var = 0) :=
  ⟨rfl, build_item_counter_amended 9 InitializerS.default0 4 (HExpr.boolE true) i1W rfl⟩

end MM0
